import Mathlib

/-!
# linux_nmeap.c : the GGA/RMC example driver over Linux serial IO

A shallow embedding of `src/linux_nmeap.c`.

* C `int` values are modelled by `Int`.  Every quantity the driver computes
  (`len`, `rem`, `offset`) stays far inside the 32-bit range whenever `read`
  returns at most the 32 bytes it was asked for and the parser lowers `rem`
  on every call without making it negative (`offset` is then at most
  `32 * 33 / 2`), so no wrap-around is modelled.
* A `double` is carried as its bit pattern; the driver never computes with
  one, it only hands record fields to `printf`.
* Everything outside the file (the operating system calls and the nmeap
  library) is a field of `World`, so that every statement quantifies over
  all behaviours of those collaborators.
* Everything observable is recorded as a list of `Event`s, in program order.
* The two loops take a fuel argument; a run that uses up its fuel is reported
  as `Outcome.running` together with the events produced so far.
-/

namespace LinuxNmeap

/-! ## Data model -/

/-- A C `double`, kept as its 64-bit pattern. -/
structure CDouble where
  bits : Nat
deriving DecidableEq, Repr

/-- Modelled from the spec: the record type `nmeap_gga_t` is declared in
`nmeap.h`, which is not among the sources.  The fields are those of spec §3,
under the names and C types with which `print_gga` reads them. -/
structure nmeap_gga_t where
  latitude : CDouble
  longitude : CDouble
  altitude : CDouble
  time : Nat
  satellites : Int
  quality : Int
  hdop : CDouble
  geoid : CDouble
deriving DecidableEq, Repr

/-- Modelled from the spec: the record type `nmeap_rmc_t` is declared in
`nmeap.h`, which is not among the sources.  The fields are those of spec §3,
under the names and C types with which `print_rmc` reads them. -/
structure nmeap_rmc_t where
  time : Nat
  warn : Nat
  latitude : CDouble
  longitude : CDouble
  speed : CDouble
  course : CDouble
  date : Nat
  magvar : CDouble
deriving DecidableEq, Repr

/-- One argument of a `printf` call, tagged by its conversion. -/
inductive PArg where
  | dbl (x : CDouble)
  | ulong (n : Nat)
  | int (i : Int)
  | chr (c : Nat)
deriving DecidableEq, Repr

/-- The slice of `struct termios` that `openPort` touches. -/
structure termios where
  c_iflag : Nat
  c_oflag : Nat
  c_cflag : Nat
  c_lflag : Nat
  c_cc : List Nat
deriving DecidableEq, Repr

/-- Pointers to the objects of type `nmeap_gga_t` defined in the file. -/
inductive GgaPtr where
  | g_gga
  | gga
deriving DecidableEq, Repr

/-- Pointers to the objects of type `nmeap_rmc_t` defined in the file. -/
inductive RmcPtr where
  | rmc
deriving DecidableEq, Repr

/-- The `void *` record argument of `nmeap_addParser`. -/
inductive RecRef where
  | gga (p : GgaPtr)
  | rmc (p : RmcPtr)
deriving DecidableEq, Repr

/-- The library decoders named by the driver. -/
inductive Decoder where
  | nmeap_gpgga
  | nmeap_gprmc
deriving DecidableEq, Repr

/-- The callouts defined in the file, as function pointers. -/
inductive Callout where
  | gpgga_callout
  | gprmc_callout
deriving DecidableEq, Repr

/-- Everything the program does that is visible from outside, one
constructor per external call, with the arguments passed and the value
returned. -/
inductive Event where
  | sys_open (tty : String) (flags : Nat) (ret : Int)
  | perror (s : String)
  | tcflush (fd : Int) (queue : Nat) (ret : Int)
  | tcgetattr (fd : Int)
  | tcsetattr (fd : Int) (action : Nat) (t : termios) (ret : Int)
  | close (fd : Int)
  | printf (fmt : String) (args : List PArg)
  | nmeap_init (ret : Int)
  | nmeap_addParser (id : String) (decoder : Decoder) (callout : Callout)
      (data : RecRef) (ret : Int)
  | read (fd : Int) (count : Nat) (ret : Int)
  | nmeap_parseBuffer (offset : Int) (rem : Int) (status : Int) (remOut : Int)
deriving DecidableEq, Repr

/-- The objects with static storage duration: `g_gga`, `nmea`, `gga`, `rmc`
and `user_data`.  The parser context type is the library's and stays a
parameter. -/
structure Statics (σ : Type) where
  g_gga : nmeap_gga_t
  nmea : σ
  gga : nmeap_gga_t
  rmc : nmeap_rmc_t
  user_data : Int

/-- Read through a `nmeap_gga_t *`. -/
def Statics.ggaAt {σ : Type} (m : Statics σ) : GgaPtr → nmeap_gga_t
  | GgaPtr.g_gga => m.g_gga
  | GgaPtr.gga => m.gga

/-- Read through a `nmeap_rmc_t *`. -/
def Statics.rmcAt {σ : Type} (m : Statics σ) : RmcPtr → nmeap_rmc_t
  | RmcPtr.rmc => m.rmc

/-- A callout invocation made by the library while it parses: which callout
and which record pointer it passes as `data`. -/
inductive CalloutCall where
  | gpgga (data : GgaPtr)
  | gprmc (data : RmcPtr)
deriving DecidableEq, Repr

/-- What one call of `nmeap_parseBuffer` leaves behind: the value returned,
the value stored through the `int *` length argument, the context and the two
registered records as written by the library, and the callouts it fired (after
those writes, spec §4.3). -/
structure ParseResult (σ : Type) where
  status : Int
  rem : Int
  nmea : σ
  gga : nmeap_gga_t
  rmc : nmeap_rmc_t
  callouts : List CalloutCall

/-- The collaborators of the driver: the system calls and the nmeap library.
`sys_read i fd count` is the outcome of the `i`-th `read` of the run: the
value returned and the contents of `buffer` afterwards. -/
structure World (σ : Type) where
  sys_open : String → Nat → Int
  sys_tcflush : Int → Nat → Int
  sys_tcgetattr : Int → termios
  sys_tcsetattr : Int → Nat → termios → Int
  sys_read : Nat → Int → Nat → Int × List Nat
  nmea0 : σ
  nmeap_init : σ → Int × σ
  nmeap_addParser : σ → String → Decoder → Callout → RecRef → Int × σ
  nmeap_parseBuffer : Statics σ → List Nat → Int → Int → ParseResult σ

/-- The two status constants of `nmeap.h` the driver switches on; the header
is not among the sources, so they are parameters. -/
structure Consts where
  NMEAP_GPGGA : Int
  NMEAP_GPRMC : Int
deriving DecidableEq, Repr

/-! ## Constants of the Linux headers used by `openPort` -/

def O_RDWR : Nat := 2
def O_NOCTTY : Nat := 256
def TCIFLUSH : Nat := 0
def TCSANOW : Nat := 0
def B4800 : Nat := 12
def CS8 : Nat := 48
def CLOCAL : Nat := 2048
def CREAD : Nat := 128
def IGNBRK : Nat := 1
def IGNPAR : Nat := 4
def VMIN : Nat := 6

/-! ## The printing functions and the callouts -/

/-- The format string of `print_gga`. -/
def ggaFmt : String := "found GPGGA message %.6f %.6f %.0f %lu %d %d %f %f\n"

/-- The format string of `print_rmc`. -/
def rmcFmt : String := "found GPRMC Message %lu %c %.6f %.6f %f %f %lu %f\n"

/-- The `printf` of `print_gga`. -/
def print_gga (gga : nmeap_gga_t) : Event :=
  Event.printf ggaFmt
    [PArg.dbl gga.latitude, PArg.dbl gga.longitude, PArg.dbl gga.altitude,
     PArg.ulong gga.time, PArg.int gga.satellites, PArg.int gga.quality,
     PArg.dbl gga.hdop, PArg.dbl gga.geoid]

/-- The `printf` of `print_rmc`. -/
def print_rmc (rmc : nmeap_rmc_t) : Event :=
  Event.printf rmcFmt
    [PArg.ulong rmc.time, PArg.chr rmc.warn, PArg.dbl rmc.latitude,
     PArg.dbl rmc.longitude, PArg.dbl rmc.speed, PArg.dbl rmc.course,
     PArg.ulong rmc.date, PArg.dbl rmc.magvar]

/-- The values a callout receives for `context` and `user_data`. -/
inductive VoidPtr where
  | null
  | nmea
  | user_data
  | addr (a : Nat)
deriving DecidableEq, Repr

/-- The callout `gpgga_callout`, called when a GPGGA message is received and
parsed: statics in, statics and emitted text out. -/
def gpgga_callout {σ : Type} (m : Statics σ) (_context : VoidPtr) (data : GgaPtr)
    (_user_data : VoidPtr) : Statics σ × List Event :=
  (m, [Event.printf "-------------callout\n" [], print_gga (m.ggaAt data)])

/-- The callout `gprmc_callout`, called when a GPRMC message is received and
parsed: statics in, statics and emitted text out. -/
def gprmc_callout {σ : Type} (m : Statics σ) (_context : VoidPtr) (data : RmcPtr)
    (_user_data : VoidPtr) : Statics σ × List Event :=
  (m, [Event.printf "-------------callout\n" [], print_rmc (m.rmcAt data)])

/-- The library firing one callout: it passes the context it was given
(`&nmea`) and the user data pointer handed to `nmeap_init` (`&user_data`). -/
def runCallout {σ : Type} (m : Statics σ) : CalloutCall → Statics σ × List Event
  | CalloutCall.gpgga d => gpgga_callout m VoidPtr.nmea d VoidPtr.user_data
  | CalloutCall.gprmc d => gprmc_callout m VoidPtr.nmea d VoidPtr.user_data

/-- The callouts of one parse call, in order. -/
def runCallouts {σ : Type} (m : Statics σ) : List CalloutCall → Statics σ × List Event
  | [] => (m, [])
  | c :: cs =>
    let r1 := runCallout m c
    let r2 := runCallouts r1.1 cs
    (r2.1, r1.2 ++ r2.2)

/-! ## `openPort` -/

/-- The assignments `openPort` makes to `newtio` after `tcgetattr` filled it:
raw terminal type, and `c_cc[VMIN] = 1`. -/
def rawTermios (got : termios) (baud : Nat) : termios :=
  { got with
    c_cflag := baud ||| CS8 ||| CLOCAL ||| CREAD
    c_iflag := IGNBRK ||| IGNPAR
    c_oflag := 0
    c_cc := got.c_cc.set VMIN 1 }

/-- The function `openPort(tty, baud)`: the value returned and the calls made. -/
def openPort {σ : Type} (W : World σ) (tty : String) (baud : Nat) : Int × List Event :=
  let fd := W.sys_open tty (O_RDWR ||| O_NOCTTY)
  let e0 := [Event.sys_open tty (O_RDWR ||| O_NOCTTY) fd]
  if fd < 0 then
    (fd, e0 ++ [Event.perror "open"])
  else
    let status := W.sys_tcflush fd TCIFLUSH
    let e1 := e0 ++ [Event.tcflush fd TCIFLUSH status]
    if status < 0 then
      (-1, e1 ++ [Event.perror "tcflush", Event.close fd])
    else
      let newtio := rawTermios (W.sys_tcgetattr fd) baud
      let status := W.sys_tcsetattr fd TCSANOW newtio
      let e2 := e1 ++ [Event.tcgetattr fd, Event.tcsetattr fd TCSANOW newtio status]
      if status < 0 then
        (-1, e2 ++ [Event.perror "tcsetattr", Event.close fd])
      else
        (fd, e2)

/-! ## `main` -/

/-- The locals of `main` that live across the loops, with the statics. -/
structure MainState (σ : Type) where
  status : Int
  rem : Int
  offset : Int
  len : Int
  buffer : List Nat
  fd : Int
  mem : Statics σ

/-- How a run ends: `return v` from `main`, `exit(code)`, or still inside a
loop when the fuel ran out. -/
inductive Outcome where
  | returned (v : Int)
  | exited (code : Int)
  | running
deriving DecidableEq, Repr

/-- A run of a loop: the state reached, the events produced, and whether the
loop was left (`false`: the fuel ran out first). -/
structure LoopRun (σ : Type) where
  state : MainState σ
  events : List Event
  finished : Bool

/-- A run of `main`. -/
structure Run (σ : Type) where
  outcome : Outcome
  events : List Event
  mem : Statics σ

/-- The statics after a parse call: the library's writes, then its callouts. -/
def afterParse {σ : Type} (m : Statics σ) (r : ParseResult σ) : Statics σ × List Event :=
  runCallouts { m with nmea := r.nmea, gga := r.gga, rmc := r.rmc } r.callouts

/-- STEP 9, the `switch(status)` of the inner loop. -/
def statusSwitch {σ : Type} (K : Consts) (status : Int) (m : Statics σ) : List Event :=
  if status = K.NMEAP_GPGGA then
    [Event.printf "-------------switch\n" [], print_gga m.gga,
     Event.printf "-------------\n" []]
  else if status = K.NMEAP_GPRMC then
    [Event.printf "-------------switch\n" [], print_rmc m.rmc,
     Event.printf "-------------\n" []]
  else
    []

/-- One pass through the body of `while(rem > 0)`: STEP 8 and STEP 9.  The
parse event comes first, then the text of the callouts fired during the call,
then the text of the switch. -/
def innerStep {σ : Type} (W : World σ) (K : Consts) (s : MainState σ) :
    MainState σ × List Event :=
  let r := W.nmeap_parseBuffer s.mem s.buffer s.offset s.rem
  let mc := afterParse s.mem r
  let s1 : MainState σ :=
    { s with status := r.status, rem := r.rem, mem := mc.1,
             offset := s.offset + (s.len - r.rem) }
  (s1, [Event.nmeap_parseBuffer s.offset s.rem r.status r.rem] ++ mc.2
        ++ statusSwitch K r.status mc.1)

/-- STEP 7, the loop `while(rem > 0)`, for at most `fuel` passes. -/
def innerLoop {σ : Type} (W : World σ) (K : Consts) : Nat → MainState σ → LoopRun σ
  | 0, s => ⟨s, [], decide (s.rem ≤ 0)⟩
  | fuel + 1, s =>
    if 0 < s.rem then
      let b := innerStep W K s
      let r := innerLoop W K fuel b.1
      ⟨r.state, b.2 ++ r.events, r.finished⟩
    else
      ⟨s, [], true⟩

/-- The state in which the inner loop is entered after `read` returned `len`
and left `buf` in the buffer: `len = rem`, `offset = 0`. -/
def chunkEntry {σ : Type} (s : MainState σ) (len : Int) (buf : List Nat) : MainState σ :=
  { s with len := len, rem := len, buffer := buf, offset := 0 }

/-- STEP 5, the endless `for` loop, for at most `fuel` reads, each inner loop being
given `inner` passes; `i` counts the reads made so far. -/
def outerLoop {σ : Type} (W : World σ) (K : Consts) (inner : Nat) :
    Nat → Nat → MainState σ → LoopRun σ
  | 0, _, s => ⟨s, [], false⟩
  | fuel + 1, i, s =>
    let got := W.sys_read i s.fd 32
    let s1 : MainState σ := { s with len := got.1, rem := got.1, buffer := got.2 }
    if got.1 ≤ 0 then
      ⟨s1, [Event.read s.fd 32 got.1, Event.perror "read"], true⟩
    else
      let r := innerLoop W K inner (chunkEntry s got.1 got.2)
      if r.finished then
        let o := outerLoop W K inner fuel (i + 1) r.state
        ⟨o.state, Event.read s.fd 32 got.1 :: (r.events ++ o.events), o.finished⟩
      else
        ⟨r.state, Event.read s.fd 32 got.1 :: r.events, false⟩

/-- The zero-initialised `double`. -/
def CDouble.zero : CDouble := ⟨0⟩

/-- The statics at program start: zero-initialised, the context being the
library's zero value. -/
def Statics.start {σ : Type} (W : World σ) : Statics σ :=
  { g_gga := ⟨CDouble.zero, CDouble.zero, CDouble.zero, 0, 0, 0, CDouble.zero, CDouble.zero⟩
    nmea := W.nmea0
    gga := ⟨CDouble.zero, CDouble.zero, CDouble.zero, 0, 0, 0, CDouble.zero, CDouble.zero⟩
    rmc := ⟨0, 0, CDouble.zero, CDouble.zero, CDouble.zero, CDouble.zero, 0, CDouble.zero⟩
    user_data := 0 }

/-- STEP 3 as an event: `nmeap_addParser(&nmea,"GPGGA",nmeap_gpgga,gpgga_callout,&gga)`
returning `ret`. -/
def addGgaEvent (ret : Int) : Event :=
  Event.nmeap_addParser "GPGGA" Decoder.nmeap_gpgga Callout.gpgga_callout
    (RecRef.gga GgaPtr.gga) ret

/-- STEP 4 as an event: `nmeap_addParser(&nmea,"GPRMC",nmeap_gprmc,gprmc_callout,&rmc)`
returning `ret`. -/
def addRmcEvent (ret : Int) : Event :=
  Event.nmeap_addParser "GPRMC" Decoder.nmeap_gprmc Callout.gprmc_callout
    (RecRef.rmc RmcPtr.rmc) ret

/-- The serial device: `/dev/ttyS0`, or `argv[1]` when `argc == 2`. -/
def portOf (argv : List String) : String :=
  if argv.length = 2 then argv.getD 1 "/dev/ttyS0" else "/dev/ttyS0"

/-- The function `main(argc, argv)` with `argc = argv.length`; `fuel` bounds
the number of reads and the number of passes of each inner loop.  On entry to
STEP 5 the locals `rem`, `offset`, `len` and `buffer` are uninitialised; the
loops assign each of them before reading it, so the values given here are
never observed. -/
def main {σ : Type} (W : World σ) (K : Consts) (argv : List String) (fuel : Nat) : Run σ :=
  let m0 := Statics.start W
  let op := openPort W (portOf argv) B4800
  let fd := op.1
  if fd < 0 then
    ⟨Outcome.returned fd, op.2 ++ [Event.printf "openPort %d\n" [PArg.int fd]], m0⟩
  else
    let i1 := W.nmeap_init m0.nmea
    let m1 : Statics σ := { m0 with nmea := i1.2 }
    let t1 := op.2 ++ [Event.nmeap_init i1.1]
    if i1.1 ≠ 0 then
      ⟨Outcome.exited 1, t1 ++ [Event.printf "nmeap_init %d\n" [PArg.int i1.1]], m1⟩
    else
      let a1 := W.nmeap_addParser m1.nmea "GPGGA" Decoder.nmeap_gpgga
        Callout.gpgga_callout (RecRef.gga GgaPtr.gga)
      let m2 : Statics σ := { m1 with nmea := a1.2 }
      let t2 := t1 ++ [addGgaEvent a1.1]
      if a1.1 ≠ 0 then
        ⟨Outcome.exited 1, t2 ++ [Event.printf "nmeap_add %d\n" [PArg.int a1.1]], m2⟩
      else
        let a2 := W.nmeap_addParser m2.nmea "GPRMC" Decoder.nmeap_gprmc
          Callout.gprmc_callout (RecRef.rmc RmcPtr.rmc)
        let m3 : Statics σ := { m2 with nmea := a2.2 }
        let t3 := t2 ++ [addRmcEvent a2.1]
        if a2.1 ≠ 0 then
          ⟨Outcome.exited 1, t3 ++ [Event.printf "nmeap_add %d\n" [PArg.int a2.1]], m3⟩
        else
          let s0 : MainState σ :=
            { status := a2.1, rem := 0, offset := 0, len := 0, buffer := [], fd := fd,
              mem := m3 }
          let o := outerLoop W K fuel fuel 0 s0
          if o.finished then
            ⟨Outcome.returned 0, t3 ++ o.events ++ [Event.close fd], o.state.mem⟩
          else
            ⟨Outcome.running, t3 ++ o.events, o.state.mem⟩

/-! ## Observations on event lists -/

/-- Whether the event is a `read` of the device or a call of
`nmeap_parseBuffer`. -/
def Event.isStream : Event → Bool
  | Event.read _ _ _ => true
  | Event.nmeap_parseBuffer _ _ _ _ => true
  | _ => false

/-- Whether the event is a call of `nmeap_init` or `nmeap_addParser`. -/
def Event.isSetup : Event → Bool
  | Event.nmeap_init _ => true
  | Event.nmeap_addParser _ _ _ _ _ => true
  | _ => false

/-- Whether the event is a call of `nmeap_init` or `nmeap_addParser` that
returned nonzero. -/
def Event.isFailedSetup : Event → Bool
  | Event.nmeap_init r => decide (r ≠ 0)
  | Event.nmeap_addParser _ _ _ _ r => decide (r ≠ 0)
  | _ => false

/-- Whether the event is a `close`. -/
def Event.isClose : Event → Bool
  | Event.close _ => true
  | _ => false

/-- Whether the event is a `printf`. -/
def Event.isText : Event → Bool
  | Event.printf _ _ => true
  | _ => false

/-- Whether the event is one the streaming loops can produce. -/
def Event.isLoopEvent : Event → Bool
  | Event.read _ _ _ => true
  | Event.perror _ => true
  | Event.printf _ _ => true
  | Event.nmeap_parseBuffer _ _ _ _ => true
  | _ => false

/-- The `(offset, rem)` pairs handed to `nmeap_parseBuffer`, in call order:
the pointer passed is `&buffer[offset]` and `rem` the length passed in. -/
def parseCalls : List Event → List (Int × Int)
  | [] => []
  | Event.nmeap_parseBuffer off rem _ _ :: es => (off, rem) :: parseCalls es
  | _ :: es => parseCalls es

/-- The statuses returned by `nmeap_parseBuffer`, in call order: the values
the status switch is entered with. -/
def parseStatuses : List Event → List Int
  | [] => []
  | Event.nmeap_parseBuffer _ _ status _ :: es => status :: parseStatuses es
  | _ :: es => parseStatuses es

/-- The control skeleton of an event list: the text written by `printf` is
dropped and the status returned by each parse call is blanked. -/
def control : List Event → List Event
  | [] => []
  | Event.printf _ _ :: es => control es
  | Event.nmeap_parseBuffer off rem _ out :: es =>
    Event.nmeap_parseBuffer off rem 0 out :: control es
  | e :: es => e :: control es

/-- The world `W` with the status returned by `nmeap_parseBuffer` replaced by
`f`, everything else the parser does being kept. -/
def World.withStatus {σ : Type} (W : World σ)
    (f : Statics σ → List Nat → Int → Int → Int) : World σ :=
  { W with
    nmeap_parseBuffer := fun m b o r =>
      { W.nmeap_parseBuffer m b o r with status := f m b o r } }

/-- STEP 2 to STEP 4 all succeeding: the three library calls, in order, each
returning 0. -/
def setupOK : List Event :=
  [Event.nmeap_init 0, addGgaEvent 0, addRmcEvent 0]

/-- The state with the local `status` blanked: what the control flow of the
loops can depend on. -/
def MainState.ctl {σ : Type} (s : MainState σ) : MainState σ :=
  { s with status := 0 }

/-! ## Concrete collaborators used as test inputs -/

/-- A parser for chunks of back-to-back sentences of `k` bytes, alternately
GGA and RMC, the context counting the sentences completed.  A call with at
least `k` bytes left consumes `k` bytes, fires the callout of the sentence and
returns its status (1 for GGA, 2 for RMC); a call with fewer bytes left
consumes them all and returns 0. -/
def sentenceParser (k : Int) (m : Statics Nat) (_buffer : List Nat)
    (_offset : Int) (rem : Int) : ParseResult Nat :=
  if rem < k then
    ⟨0, 0, m.nmea, m.gga, m.rmc, []⟩
  else if m.nmea % 2 = 0 then
    ⟨1, rem - k, m.nmea + 1, m.gga, m.rmc, [CalloutCall.gpgga GgaPtr.gga]⟩
  else
    ⟨2, rem - k, m.nmea + 1, m.gga, m.rmc, [CalloutCall.gprmc RmcPtr.rmc]⟩

/-- A world in which every system and library call succeeds, the device opens
as descriptor 3, the successive reads return the lengths `chunks` and then 0,
and the parser is `sentenceParser k`. -/
def sentenceWorld (k : Int) (chunks : List Int) : World Nat :=
  { sys_open := fun _ _ => 3
    sys_tcflush := fun _ _ => 0
    sys_tcgetattr := fun _ => ⟨0, 0, 0, 0, []⟩
    sys_tcsetattr := fun _ _ _ => 0
    sys_read := fun i _ _ => (chunks.getD i 0, [])
    nmea0 := 0
    nmeap_init := fun c => (0, c)
    nmeap_addParser := fun c _ _ _ _ => (0, c)
    nmeap_parseBuffer := sentenceParser k }

/-- A choice of distinct values for `NMEAP_GPGGA` and `NMEAP_GPRMC`, matching
the statuses `sentenceParser` returns. -/
def stdConsts : Consts := ⟨1, 2⟩

/-- The bytes of a string literal, as `char` values. -/
def bytesOf (s : String) : List Nat :=
  s.toList.map Char.toNat

/-- The status of a framed sentence in `byteParser`: 1 for an identifier
"GPGGA", 2 for "GPRMC", the error code -1 for any other identifier. -/
def sentenceStatus (sentence : List Nat) : Int :=
  if sentence.take 6 = bytesOf "$GPGGA" then 1
  else if sentence.take 6 = bytesOf "$GPRMC" then 2
  else -1

/-- The scan of `byteParser`: read up to `n` bytes of `buffer` from position
`p`, with `acc` the bytes of the sentence in progress (empty while waiting for
the start marker).  Bytes before a start marker are dropped; a line feed ends
the sentence and the scan.  The result is the status, the count of bytes not
consumed and the sentence still in progress. -/
def scanBytes (buffer : List Nat) : Nat → Nat → List Nat → Int × Nat × List Nat
  | 0, _, acc => (0, 0, acc)
  | n + 1, p, acc =>
    let b := buffer.getD p 0
    if acc = [] then
      if b = 36 then scanBytes buffer n (p + 1) [36] else scanBytes buffer n (p + 1) []
    else if b = 10 then
      (sentenceStatus (acc ++ [b]), n, [])
    else
      scanBytes buffer n (p + 1) (acc ++ [b])

/-- A parser that reads the bytes it is handed: it frames sentences from the
start marker to the line feed, across calls, stops after each completed
sentence, fires the callout of a GGA or RMC sentence and stores the count of
unconsumed bytes.  The context is the sentence in progress. -/
def byteParser (m : Statics (List Nat)) (buffer : List Nat) (offset : Int) (rem : Int) :
    ParseResult (List Nat) :=
  let r := scanBytes buffer rem.toNat offset.toNat m.nmea
  ⟨r.1, r.2.1, r.2.2, m.gga, m.rmc,
    if r.1 = 1 then [CalloutCall.gpgga GgaPtr.gga]
    else if r.1 = 2 then [CalloutCall.gprmc RmcPtr.rmc]
    else []⟩

/-- A world in which every system and library call succeeds, the device opens
as descriptor 3, the successive reads have the outcomes `reads` (value
returned, contents of the 32-byte buffer afterwards) and then return 0, and
the parser is `byteParser`. -/
def byteWorld (reads : List (Int × List Nat)) : World (List Nat) :=
  { sys_open := fun _ _ => 3
    sys_tcflush := fun _ _ => 0
    sys_tcgetattr := fun _ => ⟨0, 0, 0, 0, []⟩
    sys_tcsetattr := fun _ _ _ => 0
    sys_read := fun i _ _ => reads.getD i (0, [])
    nmea0 := []
    nmeap_init := fun c => (0, c)
    nmeap_addParser := fun c _ _ _ _ => (0, c)
    nmeap_parseBuffer := byteParser }

/-- A first read of 32 bytes: 24 bytes of noise, then one GGA sentence in
`buffer[24..32)`. -/
def firstChunk : List Nat :=
  bytesOf "xxxxxxxxxxxxxxxxxxxxxxxx$GPGGA\r\n"

/-- The buffer after a second read that returned 24 bytes: a GGA sentence, an
RMC sentence and 8 bytes of noise in `buffer[0..24)`, and in `buffer[24..32)`
what the first read left there. -/
def secondChunk : List Nat :=
  bytesOf "$GPGGA\r\n$GPRMC\r\nxxxxxxxx" ++ firstChunk.drop 24

/-- The buffer after a single read that returned 24 bytes: two sentences with
unregistered identifiers, then a GGA sentence; `buffer[24..32)` is zero. -/
def errorChunk : List Nat :=
  bytesOf "$GPXXX\r\n$GPYYY\r\n$GPGGA\r\n" ++ List.replicate 8 0

/-! ## Basic facts about the pieces -/

theorem isText_isLoopEvent (e : Event) (h : e.isText = true) : e.isLoopEvent = true := by
  cases e <;> simp_all [Event.isText, Event.isLoopEvent]

theorem isLoopEvent_not_setup (e : Event) (h : e.isLoopEvent = true) : e.isSetup = false := by
  cases e <;> simp_all [Event.isSetup, Event.isLoopEvent]

theorem isLoopEvent_not_close (e : Event) (h : e.isLoopEvent = true) : e.isClose = false := by
  cases e <;> simp_all [Event.isClose, Event.isLoopEvent]

theorem isFailedSetup_isSetup (e : Event) (h : e.isFailedSetup = true) : e.isSetup = true := by
  cases e <;> simp_all [Event.isSetup, Event.isFailedSetup]

theorem runCallout_mem {σ : Type} (m : Statics σ) (c : CalloutCall) :
    (runCallout m c).1 = m := by
  cases c <;> rfl

theorem runCallout_text {σ : Type} (m : Statics σ) (c : CalloutCall) :
    ∀ e ∈ (runCallout m c).2, e.isText = true := by
  cases c <;>
    simp [runCallout, gpgga_callout, gprmc_callout, print_gga, print_rmc, Event.isText]

theorem runCallouts_mem {σ : Type} (m : Statics σ) (cs : List CalloutCall) :
    (runCallouts m cs).1 = m := by
  induction cs generalizing m with
  | nil => rfl
  | cons c cs ih => simp [runCallouts, ih, runCallout_mem]

theorem runCallouts_text {σ : Type} (m : Statics σ) (cs : List CalloutCall) :
    ∀ e ∈ (runCallouts m cs).2, e.isText = true := by
  induction cs generalizing m with
  | nil => simp [runCallouts]
  | cons c cs ih =>
    intro e he
    simp only [runCallouts, List.mem_append] at he
    rcases he with he | he
    · exact runCallout_text m c e he
    · exact ih _ e he

theorem afterParse_text {σ : Type} (m : Statics σ) (r : ParseResult σ) :
    ∀ e ∈ (afterParse m r).2, e.isText = true := by
  unfold afterParse
  exact runCallouts_text _ _

theorem statusSwitch_text {σ : Type} (K : Consts) (status : Int) (m : Statics σ) :
    ∀ e ∈ statusSwitch K status m, e.isText = true := by
  unfold statusSwitch
  split
  · simp [print_gga, Event.isText]
  · split <;> simp [print_rmc, Event.isText]

theorem innerStep_loopEvents {σ : Type} (W : World σ) (K : Consts) (s : MainState σ) :
    ∀ e ∈ (innerStep W K s).2, e.isLoopEvent = true := by
  intro e he
  simp only [innerStep, List.mem_append, List.mem_singleton] at he
  rcases he with (he | he) | he
  · subst he; rfl
  · exact isText_isLoopEvent e (afterParse_text _ _ e he)
  · exact isText_isLoopEvent e (statusSwitch_text _ _ _ e he)

theorem innerLoop_loopEvents {σ : Type} (W : World σ) (K : Consts) (fuel : Nat)
    (s : MainState σ) : ∀ e ∈ (innerLoop W K fuel s).events, e.isLoopEvent = true := by
  induction fuel generalizing s with
  | zero => simp [innerLoop]
  | succ n ih =>
    intro e he
    unfold innerLoop at he
    split at he
    · simp only [List.mem_append] at he
      rcases he with he | he
      · exact innerStep_loopEvents W K s e he
      · exact ih _ e he
    · simp at he

theorem innerStep_fd {σ : Type} (W : World σ) (K : Consts) (s : MainState σ) :
    (innerStep W K s).1.fd = s.fd := rfl

theorem innerLoop_fd {σ : Type} (W : World σ) (K : Consts) (fuel : Nat) (s : MainState σ) :
    (innerLoop W K fuel s).state.fd = s.fd := by
  induction fuel generalizing s with
  | zero => rfl
  | succ n ih =>
    unfold innerLoop
    split
    · simp [ih, innerStep_fd]
    · rfl

theorem outerLoop_loopEvents {σ : Type} (W : World σ) (K : Consts) (inner fuel i : Nat)
    (s : MainState σ) :
    ∀ e ∈ (outerLoop W K inner fuel i s).events, e.isLoopEvent = true := by
  induction fuel generalizing i s with
  | zero => simp [outerLoop]
  | succ n ih =>
    intro e he
    unfold outerLoop at he
    simp only at he
    split at he
    · simp only [List.mem_cons, List.mem_singleton, List.not_mem_nil, or_false] at he
      rcases he with he | he <;> subst he <;> rfl
    · split at he
      · simp only [List.mem_cons, List.mem_append] at he
        rcases he with he | he | he
        · subst he; rfl
        · exact innerLoop_loopEvents W K _ _ e he
        · exact ih _ _ e he
      · simp only [List.mem_cons] at he
        rcases he with he | he
        · subst he; rfl
        · exact innerLoop_loopEvents W K _ _ e he

/-- The calls `openPort` makes are neither library calls nor reads. -/
theorem openPort_events {σ : Type} (W : World σ) (tty : String) (baud : Nat) :
    ∀ e ∈ (openPort W tty baud).2, e.isSetup = false ∧ e.isStream = false := by
  intro e he
  unfold openPort at he
  simp only at he
  split at he
  · simp at he
    rcases he with he | he <;> subst he <;> exact ⟨rfl, rfl⟩
  · split at he
    · simp at he
      rcases he with he | he | he | he <;> subst he <;> exact ⟨rfl, rfl⟩
    · split at he
      · simp at he
        rcases he with he | he | he | he | he | he <;> subst he <;> exact ⟨rfl, rfl⟩
      · simp at he
        rcases he with he | he | he | he <;> subst he <;> exact ⟨rfl, rfl⟩

/-! ## The callouts and the status switch -/

/-- Claim C7: the example callouts are pure output formatting.  For every
state, context pointer, record pointer and user-data pointer, a callout
returns the statics it was given (the record passed as `data`, the context,
the user data and every other record are unchanged), the text it emits is the
callout banner followed by the print of the record `data` points to, and that
text is the same in any other state, with any other context and user data, as
long as the record `data` points to is the same. -/
theorem C7_callouts_pure_formatting {σ : Type} (m : Statics σ)
    (context udata : VoidPtr) :
    (∀ data : GgaPtr,
      (gpgga_callout m context data udata).1 = m ∧
      (gpgga_callout m context data udata).2 =
        [Event.printf "-------------callout\n" [], print_gga (m.ggaAt data)]) ∧
    (∀ data : RmcPtr,
      (gprmc_callout m context data udata).1 = m ∧
      (gprmc_callout m context data udata).2 =
        [Event.printf "-------------callout\n" [], print_rmc (m.rmcAt data)]) ∧
    (∀ (data : GgaPtr) (m' : Statics σ) (c' u' : VoidPtr),
      m'.ggaAt data = m.ggaAt data →
      (gpgga_callout m' c' data u').2 = (gpgga_callout m context data udata).2) ∧
    (∀ (data : RmcPtr) (m' : Statics σ) (c' u' : VoidPtr),
      m'.rmcAt data = m.rmcAt data →
      (gprmc_callout m' c' data u').2 = (gprmc_callout m context data udata).2) := by
  refine ⟨fun _ => ⟨rfl, rfl⟩, fun _ => ⟨rfl, rfl⟩, ?_, ?_⟩
  · intro data m' c' u' h
    simp [gpgga_callout, h]
  · intro data m' c' u' h
    simp [gprmc_callout, h]

/-- No registration call is made inside the streaming loops, and the ones
made before them are the two of STEP 3 and STEP 4. -/
theorem main_registrations {σ : Type} (W : World σ) (K : Consts) (argv : List String)
    (fuel : Nat) (id : String) (d : Decoder) (c : Callout) (data : RecRef) (ret : Int)
    (h : Event.nmeap_addParser id d c data ret ∈ (main W K argv fuel).events) :
    (id = "GPGGA" ∧ data = RecRef.gga GgaPtr.gga) ∨
    (id = "GPRMC" ∧ data = RecRef.rmc RmcPtr.rmc) := by
  have hop : Event.nmeap_addParser id d c data ret ∉ (openPort W (portOf argv) B4800).2 := by
    intro hm
    have := (openPort_events W _ _ _ hm).1
    simp [Event.isSetup] at this
  have hloop : ∀ inner f i s, Event.nmeap_addParser id d c data ret ∉
      (outerLoop W K inner f i s).events := by
    intro inner f i s hm
    have := isLoopEvent_not_setup _ (outerLoop_loopEvents W K inner f i s _ hm)
    simp [Event.isSetup] at this
  unfold main at h
  simp only at h
  split at h
  · simp [hop, addGgaEvent, addRmcEvent] at h
  · split at h
    · simp [hop, addGgaEvent, addRmcEvent] at h
    · split at h
      · simp [hop, addGgaEvent, addRmcEvent] at h
        exact Or.inl ⟨h.1, h.2.2.2.1⟩
      · split at h
        · simp [hop, addGgaEvent, addRmcEvent] at h
          rcases h with h | h
          · exact Or.inl ⟨h.1, h.2.2.2.1⟩
          · exact Or.inr ⟨h.1, h.2.2.2.1⟩
        · split at h
          · simp [hop, hloop, addGgaEvent, addRmcEvent] at h
            rcases h with h | h
            · exact Or.inl ⟨h.1, h.2.2.2.1⟩
            · exact Or.inr ⟨h.1, h.2.2.2.1⟩
          · simp [hop, hloop, addGgaEvent, addRmcEvent] at h
            rcases h with h | h
            · exact Or.inl ⟨h.1, h.2.2.2.1⟩
            · exact Or.inr ⟨h.1, h.2.2.2.1⟩

/-- Claim C3: the status switch of the driver.  With the two status constants
distinct (they are the case labels of one C switch), for every status the
parser returns: the switch prints the record `gga`, the one registered with
"GPGGA", when the status is `NMEAP_GPGGA`; it prints the record `rmc`, the one
registered with "GPRMC", when the status is `NMEAP_GPRMC`; it prints nothing
for any other status; so a GGA print occurs exactly for `NMEAP_GPGGA` and an
RMC print exactly for `NMEAP_GPRMC`.  Every registration `main` makes is
"GPGGA" with `&gga` or "GPRMC" with `&rmc`. -/
theorem C3_status_switch_prints {σ : Type} (K : Consts)
    (hK : K.NMEAP_GPGGA ≠ K.NMEAP_GPRMC) (status : Int) (m : Statics σ) :
    (status = K.NMEAP_GPGGA →
      statusSwitch K status m =
        [Event.printf "-------------switch\n" [], print_gga (m.ggaAt GgaPtr.gga),
         Event.printf "-------------\n" []]) ∧
    (status = K.NMEAP_GPRMC →
      statusSwitch K status m =
        [Event.printf "-------------switch\n" [], print_rmc (m.rmcAt RmcPtr.rmc),
         Event.printf "-------------\n" []]) ∧
    (status ≠ K.NMEAP_GPGGA → status ≠ K.NMEAP_GPRMC → statusSwitch K status m = []) ∧
    ((∃ g, print_gga g ∈ statusSwitch K status m) ↔ status = K.NMEAP_GPGGA) ∧
    ((∃ r, print_rmc r ∈ statusSwitch K status m) ↔ status = K.NMEAP_GPRMC) ∧
    (∀ (W : World σ) (argv : List String) (fuel : Nat) (id : String) (d : Decoder)
       (c : Callout) (data : RecRef) (ret : Int),
      Event.nmeap_addParser id d c data ret ∈ (main W K argv fuel).events →
      (id = "GPGGA" ∧ data = RecRef.gga GgaPtr.gga) ∨
      (id = "GPRMC" ∧ data = RecRef.rmc RmcPtr.rmc)) := by
  refine ⟨?_, ?_, ?_, ?_, ?_, ?_⟩
  · intro h
    simp [statusSwitch, h, Statics.ggaAt]
  · intro h
    have h' : ¬ status = K.NMEAP_GPGGA := by rw [h]; exact fun e => hK e.symm
    simp [statusSwitch, h, Statics.rmcAt, Ne.symm hK]
  · intro h1 h2
    simp [statusSwitch, h1, h2]
  · constructor
    · rintro ⟨g, hg⟩
      by_contra hne
      unfold statusSwitch at hg
      rw [if_neg hne] at hg
      split at hg
      · simp [print_gga, print_rmc, ggaFmt, rmcFmt] at hg
      · simp at hg
    · intro h
      exact ⟨m.gga, by simp [statusSwitch, h]⟩
  · constructor
    · rintro ⟨r, hr⟩
      by_contra hne
      unfold statusSwitch at hr
      rw [if_neg hne] at hr
      split at hr
      · simp [print_gga, print_rmc, ggaFmt, rmcFmt] at hr
      · simp at hr
    · intro h
      have h' : ¬ status = K.NMEAP_GPGGA := by rw [h]; exact fun e => hK e.symm
      exact ⟨m.rmc, by simp [statusSwitch, h, Ne.symm hK]⟩
  · intro W argv fuel id d c data ret h
    exact main_registrations W K argv fuel id d c data ret h

/-- Witness for C3 at the constants of the nmeap distribution, status 2. -/
theorem C3_status_switch_prints_witness :
    stdConsts.NMEAP_GPGGA ≠ stdConsts.NMEAP_GPRMC ∧
    (statusSwitch stdConsts 2 (Statics.start (sentenceWorld 8 [24])) =
      [Event.printf "-------------switch\n" [],
       print_rmc ((Statics.start (sentenceWorld 8 [24])).rmcAt RmcPtr.rmc),
       Event.printf "-------------\n" []]) :=
  ⟨by decide, (C3_status_switch_prints stdConsts (by decide) 2
    (Statics.start (sentenceWorld 8 [24]))).2.1 rfl⟩

/-! ## `openPort` -/

/-- Claim C6: what `openPort` returns.  `open` returns -1 or a non-negative
descriptor; for every such outcome and every outcome of `tcflush` and
`tcsetattr`: when all three succeed `openPort` returns the descriptor and
makes no `close`; when any fails it returns -1, and if a descriptor had been
opened, `close` of that descriptor is the last call it makes and the only
`close`. -/
theorem C6_openPort_fd_or_minus_one {σ : Type} (W : World σ) (tty : String) (baud : Nat)
    (hopen : -1 ≤ W.sys_open tty (O_RDWR ||| O_NOCTTY)) :
    ((0 ≤ W.sys_open tty (O_RDWR ||| O_NOCTTY) ∧
      0 ≤ W.sys_tcflush (W.sys_open tty (O_RDWR ||| O_NOCTTY)) TCIFLUSH ∧
      0 ≤ W.sys_tcsetattr (W.sys_open tty (O_RDWR ||| O_NOCTTY)) TCSANOW
            (rawTermios (W.sys_tcgetattr (W.sys_open tty (O_RDWR ||| O_NOCTTY))) baud)) →
      (openPort W tty baud).1 = W.sys_open tty (O_RDWR ||| O_NOCTTY) ∧
      ∀ e ∈ (openPort W tty baud).2, e.isClose = false) ∧
    (¬ (0 ≤ W.sys_open tty (O_RDWR ||| O_NOCTTY) ∧
      0 ≤ W.sys_tcflush (W.sys_open tty (O_RDWR ||| O_NOCTTY)) TCIFLUSH ∧
      0 ≤ W.sys_tcsetattr (W.sys_open tty (O_RDWR ||| O_NOCTTY)) TCSANOW
            (rawTermios (W.sys_tcgetattr (W.sys_open tty (O_RDWR ||| O_NOCTTY))) baud)) →
      (openPort W tty baud).1 = -1 ∧
      (W.sys_open tty (O_RDWR ||| O_NOCTTY) < 0 →
        ∀ e ∈ (openPort W tty baud).2, e.isClose = false) ∧
      (0 ≤ W.sys_open tty (O_RDWR ||| O_NOCTTY) →
        ∃ pre, (openPort W tty baud).2 =
            pre ++ [Event.close (W.sys_open tty (O_RDWR ||| O_NOCTTY))] ∧
          ∀ e ∈ pre, e.isClose = false)) := by
  constructor
  · rintro ⟨h1, h2, h3⟩
    unfold openPort
    simp only [not_lt.mpr h1, not_lt.mpr h2, not_lt.mpr h3, if_false]
    refine ⟨trivial, ?_⟩
    intro e he
    simp at he
    rcases he with he | he | he | he <;> subst he <;> rfl
  · intro hno
    unfold openPort
    simp only
    by_cases h1 : W.sys_open tty (O_RDWR ||| O_NOCTTY) < 0
    · simp only [h1, if_true]
      refine ⟨by omega, ?_, fun h => absurd h (by omega)⟩
      intro _ e he
      simp at he
      rcases he with he | he <;> subst he <;> rfl
    · simp only [h1, if_false]
      by_cases h2 : W.sys_tcflush (W.sys_open tty (O_RDWR ||| O_NOCTTY)) TCIFLUSH < 0
      · simp only [h2, if_true]
        refine ⟨trivial, fun h => h.elim, fun _ =>
          ⟨[Event.sys_open tty (O_RDWR ||| O_NOCTTY) (W.sys_open tty (O_RDWR ||| O_NOCTTY)),
            Event.tcflush (W.sys_open tty (O_RDWR ||| O_NOCTTY)) TCIFLUSH
              (W.sys_tcflush (W.sys_open tty (O_RDWR ||| O_NOCTTY)) TCIFLUSH),
            Event.perror "tcflush"], by simp, ?_⟩⟩
        intro e he
        simp at he
        rcases he with he | he | he <;> subst he <;> rfl
      · simp only [h2, if_false]
        have h3 : W.sys_tcsetattr (W.sys_open tty (O_RDWR ||| O_NOCTTY)) TCSANOW
            (rawTermios (W.sys_tcgetattr (W.sys_open tty (O_RDWR ||| O_NOCTTY))) baud) < 0 := by
          by_contra h3
          exact hno ⟨not_lt.mp h1, not_lt.mp h2, not_lt.mp h3⟩
        simp only [h3, if_true]
        refine ⟨trivial, fun h => h.elim, fun _ =>
          ⟨[Event.sys_open tty (O_RDWR ||| O_NOCTTY) (W.sys_open tty (O_RDWR ||| O_NOCTTY)),
            Event.tcflush (W.sys_open tty (O_RDWR ||| O_NOCTTY)) TCIFLUSH
              (W.sys_tcflush (W.sys_open tty (O_RDWR ||| O_NOCTTY)) TCIFLUSH),
            Event.tcgetattr (W.sys_open tty (O_RDWR ||| O_NOCTTY)),
            Event.tcsetattr (W.sys_open tty (O_RDWR ||| O_NOCTTY)) TCSANOW
              (rawTermios (W.sys_tcgetattr (W.sys_open tty (O_RDWR ||| O_NOCTTY))) baud)
              (W.sys_tcsetattr (W.sys_open tty (O_RDWR ||| O_NOCTTY)) TCSANOW
                (rawTermios (W.sys_tcgetattr (W.sys_open tty (O_RDWR ||| O_NOCTTY))) baud)),
            Event.perror "tcsetattr"], by simp, ?_⟩⟩
        intro e he
        simp at he
        rcases he with he | he | he | he | he <;> subst he <;> rfl

/-- Witness for C6: a device that opens as descriptor 3 and is then
configured without error. -/
theorem C6_openPort_fd_or_minus_one_witness :
    -1 ≤ (sentenceWorld 8 [24]).sys_open "/dev/ttyS0" (O_RDWR ||| O_NOCTTY) ∧
    (openPort (sentenceWorld 8 [24]) "/dev/ttyS0" B4800).1 = 3 :=
  ⟨by decide,
   ((C6_openPort_fd_or_minus_one (sentenceWorld 8 [24]) "/dev/ttyS0" B4800 (by decide)).1
      ⟨by decide, by decide, by decide⟩).1⟩

/-! ## The consume-remainder loop on concrete chunks -/

/-- Claim C1, the code at a failing input: a 24-byte chunk on which the
parser completes a sentence every 8 bytes.  The three parse calls are made at
offsets 0, 8 and 24 with remaining lengths 24, 16 and 8: at the third call
`offset + rem` is 32, not 24, so the parser is handed `buffer[24..32)`
instead of the unparsed bytes `buffer[16..24)`. -/
theorem C1_third_call_skips_ahead :
    (main (sentenceWorld 8 [24]) stdConsts [] 24).outcome = Outcome.returned 0 ∧
    parseCalls (main (sentenceWorld 8 [24]) stdConsts [] 24).events =
      [(0, 24), (8, 16), (24, 8)] ∧
    ¬ (∀ c ∈ parseCalls (main (sentenceWorld 8 [24]) stdConsts [] 24).events,
        c.1 + c.2 = 24) := by
  have h : parseCalls (main (sentenceWorld 8 [24]) stdConsts [] 24).events =
      [(0, 24), (8, 16), (24, 8)] := by rfl
  refine ⟨by rfl, h, ?_⟩
  rw [h]
  decide

/-- Claim C8, the code at a failing input: a full 32-byte chunk on which the
parser completes a sentence every 8 bytes.  The parse calls are made at
offsets 0, 8, 24 and 48 with remaining lengths 32, 24, 16 and 8: the third
call is handed `buffer[24..40)` and the fourth `buffer[48..56)`, both past
the end of the 32-byte buffer. -/
theorem C8_third_call_leaves_buffer :
    (main (sentenceWorld 8 [32]) stdConsts [] 32).outcome = Outcome.returned 0 ∧
    parseCalls (main (sentenceWorld 8 [32]) stdConsts [] 32).events =
      [(0, 32), (8, 24), (24, 16), (48, 8)] ∧
    ¬ (∀ c ∈ parseCalls (main (sentenceWorld 8 [32]) stdConsts [] 32).events,
        0 ≤ c.1 ∧ c.1 + c.2 ≤ 32) := by
  have h : parseCalls (main (sentenceWorld 8 [32]) stdConsts [] 32).events =
      [(0, 32), (8, 24), (24, 16), (48, 8)] := by rfl
  refine ⟨by rfl, h, ?_⟩
  rw [h]
  decide

/-! ## The consume-remainder loop in general -/

theorem parseCalls_append (a b : List Event) :
    parseCalls (a ++ b) = parseCalls a ++ parseCalls b := by
  induction a with
  | nil => rfl
  | cons e es ih => cases e <;> simp [parseCalls, ih]

theorem parseCalls_text (l : List Event) (h : ∀ e ∈ l, e.isText = true) :
    parseCalls l = [] := by
  induction l with
  | nil => rfl
  | cons e es ih =>
    have he := h e (List.mem_cons_self _ _)
    have hes : ∀ x ∈ es, x.isText = true := fun x hx => h x (List.mem_cons_of_mem _ hx)
    cases e <;> simp_all [parseCalls, Event.isText]

theorem parseStatuses_append (a b : List Event) :
    parseStatuses (a ++ b) = parseStatuses a ++ parseStatuses b := by
  induction a with
  | nil => rfl
  | cons e es ih => cases e <;> simp [parseStatuses, ih]

theorem parseStatuses_text (l : List Event) (h : ∀ e ∈ l, e.isText = true) :
    parseStatuses l = [] := by
  induction l with
  | nil => rfl
  | cons e es ih =>
    have he := h e (List.mem_cons_self _ _)
    have hes : ∀ x ∈ es, x.isText = true := fun x hx => h x (List.mem_cons_of_mem _ hx)
    cases e <;> simp_all [parseStatuses, Event.isText]

/-- The events of one pass of the loop body: the parse call, the text of the
callouts it fired, the text of the switch. -/
theorem innerStep_events {σ : Type} (W : World σ) (K : Consts) (s : MainState σ) :
    (innerStep W K s).2 =
      Event.nmeap_parseBuffer s.offset s.rem
          (W.nmeap_parseBuffer s.mem s.buffer s.offset s.rem).status
          (W.nmeap_parseBuffer s.mem s.buffer s.offset s.rem).rem ::
        ((afterParse s.mem (W.nmeap_parseBuffer s.mem s.buffer s.offset s.rem)).2 ++
          statusSwitch K (W.nmeap_parseBuffer s.mem s.buffer s.offset s.rem).status
            (afterParse s.mem (W.nmeap_parseBuffer s.mem s.buffer s.offset s.rem)).1) := by
  simp [innerStep]

/-- One pass of the loop body makes exactly one parse call, with the current
`offset` and `rem`. -/
theorem innerStep_parseCalls {σ : Type} (W : World σ) (K : Consts) (s : MainState σ) :
    parseCalls (innerStep W K s).2 = [(s.offset, s.rem)] := by
  rw [innerStep_events]
  show (s.offset, s.rem) :: parseCalls _ = _
  rw [parseCalls_append, parseCalls_text _ (afterParse_text _ _),
    parseCalls_text _ (statusSwitch_text _ _ _)]
  rfl

theorem innerStep_parseStatuses {σ : Type} (W : World σ) (K : Consts) (s : MainState σ) :
    parseStatuses (innerStep W K s).2 =
      [(W.nmeap_parseBuffer s.mem s.buffer s.offset s.rem).status] := by
  rw [innerStep_events]
  show (W.nmeap_parseBuffer s.mem s.buffer s.offset s.rem).status :: parseStatuses _ = _
  rw [parseStatuses_append, parseStatuses_text _ (afterParse_text _ _),
    parseStatuses_text _ (statusSwitch_text _ _ _)]
  rfl

/-- With a parser that always makes progress and never leaves a negative
count, the loop started with `0 ≤ rem ≤ fuel` is left, with `rem = 0`, after
at most `rem` parse calls. -/
theorem innerLoop_terminates {σ : Type} (W : World σ) (K : Consts)
    (hprog : ∀ m b o r, 0 < r →
      0 ≤ (W.nmeap_parseBuffer m b o r).rem ∧ (W.nmeap_parseBuffer m b o r).rem ≤ r - 1)
    (fuel : Nat) (s : MainState σ) (h0 : 0 ≤ s.rem) (hf : s.rem ≤ (fuel : Int)) :
    (innerLoop W K fuel s).finished = true ∧
    (innerLoop W K fuel s).state.rem = 0 ∧
    ((parseCalls (innerLoop W K fuel s).events).length : Int) ≤ s.rem := by
  induction fuel generalizing s with
  | zero =>
    have h : s.rem = 0 := by simp at hf; omega
    simp [innerLoop, h, parseCalls]
  | succ n ih =>
    unfold innerLoop
    split
    · rename_i hpos
      have hp := hprog s.mem s.buffer s.offset s.rem hpos
      have hrem : (innerStep W K s).1.rem =
          (W.nmeap_parseBuffer s.mem s.buffer s.offset s.rem).rem := rfl
      have ih' := ih (innerStep W K s).1 (by rw [hrem]; exact hp.1)
        (by rw [hrem]; push_cast at hf; omega)
      refine ⟨ih'.1, ih'.2.1, ?_⟩
      simp only [parseCalls_append, innerStep_parseCalls, List.length_append,
        List.length_singleton]
      have := ih'.2.2
      rw [hrem] at this
      push_cast
      omega
    · rename_i hneg
      have h : s.rem = 0 := by omega
      simp [h, parseCalls]

/-- Claim C9: the inner loop processes input until the buffer is used up and
then stops.  For every chunk length `len ≥ 1` and every parser that on each
call with `rem > 0` lowers `rem` by at least 1 and never below 0, the loop
entered after the read, given at least `len` passes of fuel, is left (it does
not run out of fuel), with `rem = 0`, after at most `len` calls of
`nmeap_parseBuffer`. -/
theorem C9_inner_loop_stops {σ : Type} (W : World σ) (K : Consts) (s : MainState σ)
    (len : Int) (buf : List Nat) (fuel : Nat) (hlen : 1 ≤ len)
    (hprog : ∀ m b o r, 0 < r →
      0 ≤ (W.nmeap_parseBuffer m b o r).rem ∧ (W.nmeap_parseBuffer m b o r).rem ≤ r - 1)
    (hfuel : len ≤ (fuel : Int)) :
    (innerLoop W K fuel (chunkEntry s len buf)).finished = true ∧
    (innerLoop W K fuel (chunkEntry s len buf)).state.rem = 0 ∧
    ((parseCalls (innerLoop W K fuel (chunkEntry s len buf)).events).length : Int) ≤ len :=
  innerLoop_terminates W K hprog fuel (chunkEntry s len buf)
    (by show 0 ≤ len; omega) hfuel

theorem sentenceParser_progress (m : Statics Nat) (b : List Nat) (o r : Int) (h : 0 < r) :
    0 ≤ (sentenceParser 8 m b o r).rem ∧ (sentenceParser 8 m b o r).rem ≤ r - 1 := by
  unfold sentenceParser
  split
  · simp; omega
  · split <;> simp <;> omega

/-- Witness for C9: a 24-byte chunk of three 8-byte sentences. -/
theorem C9_inner_loop_stops_witness :
    (innerLoop (sentenceWorld 8 [24]) stdConsts 24
      (chunkEntry ⟨0, 0, 0, 0, [], 3, Statics.start (sentenceWorld 8 [24])⟩ 24 [])).finished
        = true ∧
    (innerLoop (sentenceWorld 8 [24]) stdConsts 24
      (chunkEntry ⟨0, 0, 0, 0, [], 3, Statics.start (sentenceWorld 8 [24])⟩ 24 [])).state.rem
        = 0 ∧
    ((parseCalls (innerLoop (sentenceWorld 8 [24]) stdConsts 24
      (chunkEntry ⟨0, 0, 0, 0, [], 3, Statics.start (sentenceWorld 8 [24])⟩ 24 [])).events).length
        : Int) ≤ 24 :=
  C9_inner_loop_stops (sentenceWorld 8 [24]) stdConsts
    ⟨0, 0, 0, 0, [], 3, Statics.start (sentenceWorld 8 [24])⟩ 24 [] 24 (by decide)
    (fun m b o r h => sentenceParser_progress m b o r h) (by decide)

theorem innerLoop_done {σ : Type} (W : World σ) (K : Consts) (fuel : Nat) (s : MainState σ)
    (h : s.rem ≤ 0) : innerLoop W K fuel s = ⟨s, [], true⟩ := by
  cases fuel with
  | zero => simp [innerLoop, h]
  | succ n => simp [innerLoop, not_lt.mpr h]

theorem innerLoop_pass {σ : Type} (W : World σ) (K : Consts) (fuel : Nat) (s : MainState σ)
    (h : 0 < s.rem) :
    innerLoop W K (fuel + 1) s =
      ⟨(innerLoop W K fuel (innerStep W K s).1).state,
       (innerStep W K s).2 ++ (innerLoop W K fuel (innerStep W K s).1).events,
       (innerLoop W K fuel (innerStep W K s).1).finished⟩ := by
  rw [innerLoop]
  simp [h]

/-- The first two passes of the inner loop on a chunk of two back-to-back
sentences.  Let the chunk have any length `len`, let the parser, called on
the whole chunk, stop after the first sentence (`c1 ≥ 1` bytes) returning `s1`
and leaving `rem = len - c1`, and, called at offset `c1` with `len - c1`, stop
after the second sentence (`c2 ≥ 1` further bytes, `c1 + c2 ≤ len`) returning
`s2` and leaving `rem = len - c1 - c2`.  Then the first two parse calls are
made at offsets 0 and `c1` with remaining lengths `len` and `len - c1`, the
status switch is entered with `s1` and then `s2`, and when the two sentences
fill the chunk no further call is made.  Nothing is said about the calls made
when bytes remain after the second sentence. -/
theorem innerLoop_first_two_calls {σ : Type} (W : World σ) (K : Consts)
    (s : MainState σ) (len : Int) (buf : List Nat) (c1 c2 s1 s2 : Int) (fuel : Nat)
    (hc1 : 1 ≤ c1) (hc2 : 1 ≤ c2) (hsum : c1 + c2 ≤ len)
    (h1s : (W.nmeap_parseBuffer s.mem buf 0 len).status = s1)
    (h1r : (W.nmeap_parseBuffer s.mem buf 0 len).rem = len - c1)
    (h2s : (W.nmeap_parseBuffer (afterParse s.mem (W.nmeap_parseBuffer s.mem buf 0 len)).1
              buf c1 (len - c1)).status = s2)
    (h2r : (W.nmeap_parseBuffer (afterParse s.mem (W.nmeap_parseBuffer s.mem buf 0 len)).1
              buf c1 (len - c1)).rem = len - c1 - c2)
    (hfuel : 2 ≤ fuel) :
    (parseCalls (innerLoop W K fuel (chunkEntry s len buf)).events).take 2 =
      [(0, len), (c1, len - c1)] ∧
    (parseStatuses (innerLoop W K fuel (chunkEntry s len buf)).events).take 2 = [s1, s2] ∧
    ∃ rest,
      (innerLoop W K fuel (chunkEntry s len buf)).events =
        Event.nmeap_parseBuffer 0 len s1 (len - c1) ::
          ((afterParse s.mem (W.nmeap_parseBuffer s.mem buf 0 len)).2 ++
            statusSwitch K s1 (afterParse s.mem (W.nmeap_parseBuffer s.mem buf 0 len)).1) ++
        (Event.nmeap_parseBuffer c1 (len - c1) s2 (len - c1 - c2) ::
          ((afterParse (afterParse s.mem (W.nmeap_parseBuffer s.mem buf 0 len)).1
              (W.nmeap_parseBuffer (afterParse s.mem (W.nmeap_parseBuffer s.mem buf 0 len)).1
                buf c1 (len - c1))).2 ++
            statusSwitch K s2
              (afterParse (afterParse s.mem (W.nmeap_parseBuffer s.mem buf 0 len)).1
                (W.nmeap_parseBuffer (afterParse s.mem (W.nmeap_parseBuffer s.mem buf 0 len)).1
                  buf c1 (len - c1))).1)) ++
        rest ∧
      (c1 + c2 = len →
        rest = [] ∧ (innerLoop W K fuel (chunkEntry s len buf)).finished = true) := by
  obtain ⟨n, rfl⟩ : ∃ n, fuel = n + 2 := ⟨fuel - 2, by omega⟩
  -- the state after the first pass
  have e1 : (innerStep W K (chunkEntry s len buf)).1 =
      ⟨s1, len - c1, c1, len, buf, s.fd,
        (afterParse s.mem (W.nmeap_parseBuffer s.mem buf 0 len)).1⟩ := by
    show MainState.mk _ _ _ _ _ _ _ = _
    simp only [chunkEntry, h1s, h1r]
    congr 1
    omega
  have v1 : (innerStep W K (chunkEntry s len buf)).2 =
      Event.nmeap_parseBuffer 0 len s1 (len - c1) ::
        ((afterParse s.mem (W.nmeap_parseBuffer s.mem buf 0 len)).2 ++
          statusSwitch K s1 (afterParse s.mem (W.nmeap_parseBuffer s.mem buf 0 len)).1) := by
    rw [innerStep_events]
    simp only [chunkEntry, h1s, h1r]
  -- the state after the second pass
  have e2 : (innerStep W K (⟨s1, len - c1, c1, len, buf, s.fd,
        (afterParse s.mem (W.nmeap_parseBuffer s.mem buf 0 len)).1⟩ : MainState σ)).1.rem =
      len - c1 - c2 := by
    show (W.nmeap_parseBuffer _ _ _ _).rem = _
    exact h2r
  have v2 : (innerStep W K (⟨s1, len - c1, c1, len, buf, s.fd,
        (afterParse s.mem (W.nmeap_parseBuffer s.mem buf 0 len)).1⟩ : MainState σ)).2 =
      Event.nmeap_parseBuffer c1 (len - c1) s2 (len - c1 - c2) ::
        ((afterParse (afterParse s.mem (W.nmeap_parseBuffer s.mem buf 0 len)).1
            (W.nmeap_parseBuffer (afterParse s.mem (W.nmeap_parseBuffer s.mem buf 0 len)).1
              buf c1 (len - c1))).2 ++
          statusSwitch K s2
            (afterParse (afterParse s.mem (W.nmeap_parseBuffer s.mem buf 0 len)).1
              (W.nmeap_parseBuffer (afterParse s.mem (W.nmeap_parseBuffer s.mem buf 0 len)).1
                buf c1 (len - c1))).1) := by
    rw [innerStep_events]
    simp only [h2s, h2r]
  have p1 : 0 < (chunkEntry s len buf).rem := by show 0 < len; omega
  have p2 : 0 < (⟨s1, len - c1, c1, len, buf, s.fd,
        (afterParse s.mem (W.nmeap_parseBuffer s.mem buf 0 len)).1⟩ : MainState σ).rem := by
    show 0 < len - c1; omega
  have hev : (innerLoop W K (n + 2) (chunkEntry s len buf)).events =
      (innerStep W K (chunkEntry s len buf)).2 ++
        ((innerStep W K (⟨s1, len - c1, c1, len, buf, s.fd,
          (afterParse s.mem (W.nmeap_parseBuffer s.mem buf 0 len)).1⟩ : MainState σ)).2 ++
          (innerLoop W K n (innerStep W K (⟨s1, len - c1, c1, len, buf, s.fd,
            (afterParse s.mem (W.nmeap_parseBuffer s.mem buf 0 len)).1⟩ :
              MainState σ)).1).events) := by
    rw [innerLoop_pass W K (n + 1) _ p1]
    simp only [e1]
    rw [innerLoop_pass W K n _ p2]
  have hfin : (innerLoop W K (n + 2) (chunkEntry s len buf)).finished =
      (innerLoop W K n (innerStep W K (⟨s1, len - c1, c1, len, buf, s.fd,
        (afterParse s.mem (W.nmeap_parseBuffer s.mem buf 0 len)).1⟩ :
          MainState σ)).1).finished := by
    rw [innerLoop_pass W K (n + 1) _ p1]
    simp only [e1]
    rw [innerLoop_pass W K n _ p2]
  refine ⟨?_, ?_, ?_⟩
  · rw [hev, parseCalls_append, parseCalls_append, ← e1, innerStep_parseCalls, e1,
      innerStep_parseCalls]
    rfl
  · rw [hev, parseStatuses_append, parseStatuses_append, ← e1, innerStep_parseStatuses, e1,
      innerStep_parseStatuses]
    simp only [chunkEntry, h1s, h2s]
    rfl
  · refine ⟨(innerLoop W K n (innerStep W K (⟨s1, len - c1, c1, len, buf, s.fd,
        (afterParse s.mem (W.nmeap_parseBuffer s.mem buf 0 len)).1⟩ :
          MainState σ)).1).events, ?_, ?_⟩
    · rw [hev, v1, v2, List.append_assoc]
    · intro hfill
      have hz : (innerStep W K (⟨s1, len - c1, c1, len, buf, s.fd,
          (afterParse s.mem (W.nmeap_parseBuffer s.mem buf 0 len)).1⟩ :
            MainState σ)).1.rem ≤ 0 := by
        rw [e2]; omega
      rw [hfin, innerLoop_done W K n _ hz]
      exact ⟨rfl, rfl⟩

/-- Claim C2, the code at a failing input: the device first delivers 32
bytes ending in a GGA sentence, then 24 bytes holding a GGA sentence, an RMC
sentence and 8 bytes of noise, so that `buffer[24..32)` still holds the GGA
sentence of the first read.  On the second chunk the parser behaves as the
claim requires (`len = 24`, `c1 = c2 = 8`: status 1 leaving 16, then status 2
leaving 8), and the unparsed bytes `buffer[16..24)` complete no sentence; yet
the loop makes a third call at offset 24 with `rem = 8`, on the stale bytes,
and the status switch is entered with 1, 2 and 1: three completed statuses
for a chunk of two sentences. -/
theorem C2_stale_sentence_third_status :
    ((byteParser (Statics.start (byteWorld [])) secondChunk 0 24).status = 1 ∧
     (byteParser (Statics.start (byteWorld [])) secondChunk 0 24).rem = 24 - 8) ∧
    ((byteParser (Statics.start (byteWorld [])) secondChunk 8 (24 - 8)).status = 2 ∧
     (byteParser (Statics.start (byteWorld [])) secondChunk 8 (24 - 8)).rem = 24 - 8 - 8) ∧
    (byteParser (Statics.start (byteWorld [])) secondChunk 16 8).status = 0 ∧
    parseCalls (innerLoop (byteWorld []) stdConsts 24
      (chunkEntry ⟨0, 0, 0, 0, [], 3, Statics.start (byteWorld [])⟩ 24 secondChunk)).events =
        [(0, 24), (8, 16), (24, 8)] ∧
    parseStatuses (innerLoop (byteWorld []) stdConsts 24
      (chunkEntry ⟨0, 0, 0, 0, [], 3, Statics.start (byteWorld [])⟩ 24 secondChunk)).events =
        [1, 2, 1] ∧
    (main (byteWorld [(32, firstChunk), (24, secondChunk)]) stdConsts [] 32).outcome =
      Outcome.returned 0 ∧
    parseCalls (main (byteWorld [(32, firstChunk), (24, secondChunk)]) stdConsts [] 32).events =
      [(0, 32), (0, 24), (8, 16), (24, 8)] ∧
    parseStatuses (main (byteWorld [(32, firstChunk), (24, secondChunk)]) stdConsts [] 32).events =
      [1, 1, 2, 1] := by
  refine ⟨⟨by rfl, by rfl⟩, ⟨by rfl, by rfl⟩, by rfl, by rfl, by rfl, by rfl, by rfl, by rfl⟩

/-- Claim C5, the code at a failing input: one read of 24 bytes holding two
sentences with unregistered identifiers and then a GGA sentence.  The parser
returns the error code -1 for each of the first two sentences, leaving 16 and
then 8 bytes.  The run goes on and returns 0, but the third parse call is made
at offset 24, on `buffer[24..32)`, and returns 0: the remaining bytes of the
chunk, `buffer[16..24)`, on which a call would complete the GGA sentence with
status 1, are never handed to the parser. -/
theorem C5_remaining_bytes_never_parsed :
    (main (byteWorld [(24, errorChunk)]) stdConsts [] 32).outcome = Outcome.returned 0 ∧
    parseCalls (main (byteWorld [(24, errorChunk)]) stdConsts [] 32).events =
      [(0, 24), (8, 16), (24, 8)] ∧
    parseStatuses (main (byteWorld [(24, errorChunk)]) stdConsts [] 32).events =
      [-1, -1, 0] ∧
    (byteParser (Statics.start (byteWorld [])) errorChunk 16 8).status = 1 ∧
    ¬ (∀ c ∈ parseCalls (main (byteWorld [(24, errorChunk)]) stdConsts [] 32).events,
        c.1 + c.2 = 24) := by
  have h : parseCalls (main (byteWorld [(24, errorChunk)]) stdConsts [] 32).events =
      [(0, 24), (8, 16), (24, 8)] := by rfl
  refine ⟨by rfl, h, by rfl, by rfl, ?_⟩
  rw [h]
  decide

/-! ## The shape of a run of `main` -/

/-- The outer loop is left only through the `break` after a `read` that
returned a length `≤ 0`: that `read` and the `perror` are its last events. -/
theorem outerLoop_exit {σ : Type} (W : World σ) (K : Consts) (inner fuel i : Nat)
    (s : MainState σ) (h : (outerLoop W K inner fuel i s).finished = true) :
    ∃ pre n, n ≤ 0 ∧
      (outerLoop W K inner fuel i s).events =
        pre ++ [Event.read s.fd 32 n, Event.perror "read"] := by
  induction fuel generalizing i s with
  | zero => simp [outerLoop] at h
  | succ k ih =>
    unfold outerLoop at h ⊢
    simp only at h ⊢
    split
    · rename_i hle
      exact ⟨[], _, hle, rfl⟩
    · rename_i hgt
      rw [if_neg hgt] at h
      split
      · rename_i hfin
        rw [if_pos hfin] at h
        obtain ⟨pre, n, hn, hev⟩ := ih (i + 1) _ h
        have hfd : (innerLoop W K inner (chunkEntry s (W.sys_read i s.fd 32).1
            (W.sys_read i s.fd 32).2)).state.fd = s.fd := by
          rw [innerLoop_fd]; rfl
        rw [hfd] at hev
        exact ⟨Event.read s.fd 32 (W.sys_read i s.fd 32).1 ::
          ((innerLoop W K inner (chunkEntry s (W.sys_read i s.fd 32).1
            (W.sys_read i s.fd 32).2)).events ++ pre), n, hn, by simp [hev]⟩
      · rename_i hfin
        rw [if_neg hfin] at h
        simp at h

/-- When `openPort` returns a descriptor it has made no `close`. -/
theorem openPort_ok_no_close {σ : Type} (W : World σ) (tty : String) (baud : Nat)
    (h : 0 ≤ (openPort W tty baud).1) :
    ∀ e ∈ (openPort W tty baud).2, e.isClose = false := by
  unfold openPort at h ⊢
  simp only at h ⊢
  split
  · rename_i h1
    rw [if_pos h1] at h
    omega
  · rename_i h1
    rw [if_neg h1] at h
    split
    · rename_i h2
      rw [if_pos h2] at h
      simp at h
    · rename_i h2
      rw [if_neg h2] at h
      split
      · rename_i h3
        rw [if_pos h3] at h
        simp at h
      · intro e he
        simp at he
        rcases he with he | he | he | he <;> subst he <;> rfl

/-- The five ways a run of `main` can go: `openPort` fails; one of the three
library calls of STEP 2 to STEP 4 returns nonzero; or the streaming loop is
entered, and then either left (the descriptor is closed, `main` returns 0) or
still running when the fuel is used up. -/
theorem main_shape {σ : Type} (W : World σ) (K : Consts) (argv : List String) (fuel : Nat) :
    ((openPort W (portOf argv) B4800).1 < 0 ∧
      (main W K argv fuel).outcome = Outcome.returned (openPort W (portOf argv) B4800).1 ∧
      (main W K argv fuel).events = (openPort W (portOf argv) B4800).2 ++
        [Event.printf "openPort %d\n" [PArg.int (openPort W (portOf argv) B4800).1]]) ∨
    (0 ≤ (openPort W (portOf argv) B4800).1 ∧
      (main W K argv fuel).outcome = Outcome.exited 1 ∧
      ∃ r, r ≠ 0 ∧ (main W K argv fuel).events = (openPort W (portOf argv) B4800).2 ++
        [Event.nmeap_init r, Event.printf "nmeap_init %d\n" [PArg.int r]]) ∨
    (0 ≤ (openPort W (portOf argv) B4800).1 ∧
      (main W K argv fuel).outcome = Outcome.exited 1 ∧
      ∃ r, r ≠ 0 ∧ (main W K argv fuel).events = (openPort W (portOf argv) B4800).2 ++
        [Event.nmeap_init 0, addGgaEvent r, Event.printf "nmeap_add %d\n" [PArg.int r]]) ∨
    (0 ≤ (openPort W (portOf argv) B4800).1 ∧
      (main W K argv fuel).outcome = Outcome.exited 1 ∧
      ∃ r, r ≠ 0 ∧ (main W K argv fuel).events = (openPort W (portOf argv) B4800).2 ++
        [Event.nmeap_init 0, addGgaEvent 0, addRmcEvent r,
         Event.printf "nmeap_add %d\n" [PArg.int r]]) ∨
    (0 ≤ (openPort W (portOf argv) B4800).1 ∧
      ∃ s0 : MainState σ,
        (((outerLoop W K fuel fuel 0 s0).finished = true ∧
          (main W K argv fuel).outcome = Outcome.returned 0 ∧
          (main W K argv fuel).events = (openPort W (portOf argv) B4800).2 ++ setupOK ++
            (outerLoop W K fuel fuel 0 s0).events ++
            [Event.close (openPort W (portOf argv) B4800).1]) ∨
         ((outerLoop W K fuel fuel 0 s0).finished = false ∧
          (main W K argv fuel).outcome = Outcome.running ∧
          (main W K argv fuel).events = (openPort W (portOf argv) B4800).2 ++ setupOK ++
            (outerLoop W K fuel fuel 0 s0).events)) ∧
        s0.fd = (openPort W (portOf argv) B4800).1) := by
  unfold main
  simp only
  by_cases h0 : (openPort W (portOf argv) B4800).1 < 0
  · left
    simp [h0]
  · right
    have h0' : 0 ≤ (openPort W (portOf argv) B4800).1 := not_lt.mp h0
    rw [if_neg h0]
    by_cases h1 : (W.nmeap_init (Statics.start W).nmea).1 = 0
    · right
      simp only [h1, ne_eq, not_true_eq_false, if_false]
      by_cases h2 : (W.nmeap_addParser (W.nmeap_init (Statics.start W).nmea).2 "GPGGA"
          Decoder.nmeap_gpgga Callout.gpgga_callout (RecRef.gga GgaPtr.gga)).1 = 0
      · right
        simp only [h2, ne_eq, not_true_eq_false, if_false]
        by_cases h3 : (W.nmeap_addParser (W.nmeap_addParser
            (W.nmeap_init (Statics.start W).nmea).2 "GPGGA"
            Decoder.nmeap_gpgga Callout.gpgga_callout (RecRef.gga GgaPtr.gga)).2 "GPRMC"
            Decoder.nmeap_gprmc Callout.gprmc_callout (RecRef.rmc RmcPtr.rmc)).1 = 0
        · right
          simp only [h3, ne_eq, not_true_eq_false, if_false]
          refine ⟨h0', ?_⟩
          split
          · rename_i hf
            exact ⟨_, Or.inl ⟨hf, rfl, by simp [setupOK]⟩, rfl⟩
          · rename_i hf
            exact ⟨_, Or.inr ⟨Bool.eq_false_iff.mpr hf, rfl, by simp [setupOK]⟩, rfl⟩
        · left
          simp only [ne_eq, h3, not_false_eq_true, if_true]
          exact ⟨h0', by simp, _, h3, by simp⟩
      · left
        simp only [ne_eq, h2, not_false_eq_true, if_true]
        exact ⟨h0', by simp, _, h2, by simp⟩
    · left
      simp only [ne_eq, h1, not_false_eq_true, if_true]
      exact ⟨h0', by simp, _, h1, by simp⟩

/-- If an event list starts with a block free of stream events, a stream
event of the list lies after that block. -/
theorem split_after_block (X B pre post : List Event) (e : Event)
    (h : X ++ B = pre ++ e :: post) (hX : ∀ x ∈ X, x.isStream = false)
    (he : e.isStream = true) : ∃ b, pre = X ++ b ∧ B = b ++ e :: post := by
  rcases List.append_eq_append_iff.mp h with ⟨a', h1, h2⟩ | ⟨c', h1, h2⟩
  · exact ⟨a', h1, h2⟩
  · rcases List.cons_eq_append_iff.mp h2 with ⟨h3, h4⟩ | ⟨c'', h3, _⟩
    · subst h3
      exact ⟨[], by simpa using h1.symm, by simpa using h4⟩
    · exfalso
      have hmem : e ∈ X := by rw [h1, h3]; simp
      have := hX e hmem
      rw [he] at this
      exact Bool.noConfusion this

theorem setupOK_not_stream : ∀ x ∈ setupOK, x.isStream = false := by
  intro x hx
  simp [setupOK, addGgaEvent, addRmcEvent] at hx
  rcases hx with hx | hx | hx <;> subst hx <;> rfl

/-- Claim C4: registration happens before streaming begins.  In every run of
`main` (any collaborators, any arguments, any amount of fuel), whenever a
`read` of the device or a call of `nmeap_parseBuffer` occurs, the events
before it consist of events that are neither library set-up calls nor stream
events, then `nmeap_init` returning 0, `nmeap_addParser("GPGGA", ..., &gga)`
returning 0 and `nmeap_addParser("GPRMC", ..., &rmc)` returning 0, in that
order, then events that are no set-up calls; no set-up call follows it; and
the two registrations have distinct identifiers and distinct records. -/
theorem C4_registration_precedes_streaming {σ : Type} (W : World σ) (K : Consts)
    (argv : List String) (fuel : Nat) (pre post : List Event) (e : Event)
    (hsplit : (main W K argv fuel).events = pre ++ e :: post)
    (he : e.isStream = true) :
    (∃ a b,
      pre = a ++
        [Event.nmeap_init 0,
         Event.nmeap_addParser "GPGGA" Decoder.nmeap_gpgga Callout.gpgga_callout
           (RecRef.gga GgaPtr.gga) 0,
         Event.nmeap_addParser "GPRMC" Decoder.nmeap_gprmc Callout.gprmc_callout
           (RecRef.rmc RmcPtr.rmc) 0] ++ b ∧
      (∀ x ∈ a, x.isSetup = false ∧ x.isStream = false) ∧
      (∀ x ∈ b, x.isSetup = false)) ∧
    (∀ x ∈ post, x.isSetup = false) ∧
    "GPGGA" ≠ "GPRMC" ∧ RecRef.gga GgaPtr.gga ≠ RecRef.rmc RmcPtr.rmc := by
  have hin : e ∈ (main W K argv fuel).events := by rw [hsplit]; simp
  have hop := openPort_events W (portOf argv) B4800
  have hnot : ∀ l : List Event, (∀ x ∈ l, x.isStream = false) →
      (main W K argv fuel).events = (openPort W (portOf argv) B4800).2 ++ l → False := by
    intro l hl hev
    rw [hev, List.mem_append] at hin
    rcases hin with hin | hin
    · have := (hop e hin).2
      rw [he] at this
      exact Bool.noConfusion this
    · have := hl e hin
      rw [he] at this
      exact Bool.noConfusion this
  rcases main_shape W K argv fuel with ⟨_, _, hev⟩ | ⟨_, _, r, _, hev⟩ | ⟨_, _, r, _, hev⟩ |
      ⟨_, _, r, _, hev⟩ | ⟨_, s0, hrun, _⟩
  · exact (hnot _ (by simp [Event.isStream]) hev).elim
  · exact (hnot _ (by simp [Event.isStream]) hev).elim
  · exact (hnot _ (by simp [Event.isStream, addGgaEvent]) hev).elim
  · exact (hnot _ (by simp [Event.isStream, addGgaEvent, addRmcEvent]) hev).elim
  · have hX : ∀ x ∈ (openPort W (portOf argv) B4800).2 ++ setupOK, x.isStream = false := by
      intro x hx
      rcases List.mem_append.mp hx with hx | hx
      · exact (hop x hx).2
      · exact setupOK_not_stream x hx
    have key : ∀ L : List Event, (∀ x ∈ L, x.isSetup = false) →
        (main W K argv fuel).events = (openPort W (portOf argv) B4800).2 ++ setupOK ++ L →
        (∃ a b, pre = a ++ setupOK ++ b ∧
          (∀ x ∈ a, x.isSetup = false ∧ x.isStream = false) ∧
          (∀ x ∈ b, x.isSetup = false)) ∧
        (∀ x ∈ post, x.isSetup = false) := by
      intro L hL hev
      rw [hsplit] at hev
      obtain ⟨b, hb1, hb2⟩ := split_after_block _ L pre post e hev.symm hX he
      refine ⟨⟨(openPort W (portOf argv) B4800).2, b, hb1, hop, ?_⟩, ?_⟩
      · intro x hx
        exact hL x (by rw [hb2]; simp [hx])
      · intro x hx
        exact hL x (by rw [hb2]; simp [hx])
    have hloop : ∀ x ∈ (outerLoop W K fuel fuel 0 s0).events, x.isSetup = false :=
      fun x hx => isLoopEvent_not_setup x (outerLoop_loopEvents W K fuel fuel 0 s0 x hx)
    refine ⟨?_, ?_, by decide, by decide⟩
    · rcases hrun with ⟨_, _, hev⟩ | ⟨_, _, hev⟩
      · refine (key ((outerLoop W K fuel fuel 0 s0).events ++
          [Event.close (openPort W (portOf argv) B4800).1]) ?_ (by rw [hev]; simp)).1
        intro x hx
        rcases List.mem_append.mp hx with hx | hx
        · exact hloop x hx
        · simp at hx; subst hx; rfl
      · exact (key _ hloop hev).1
    · rcases hrun with ⟨_, _, hev⟩ | ⟨_, _, hev⟩
      · refine (key ((outerLoop W K fuel fuel 0 s0).events ++
          [Event.close (openPort W (portOf argv) B4800).1]) ?_ (by rw [hev]; simp)).2
        intro x hx
        rcases List.mem_append.mp hx with hx | hx
        · exact hloop x hx
        · simp at hx; subst hx; rfl
      · exact (key _ hloop hev).2

/-- Witness for C4: the run on one 24-byte chunk, split at its first `read`. -/
theorem C4_registration_precedes_streaming_witness :
    (main (sentenceWorld 8 [24]) stdConsts [] 24).events =
      ((main (sentenceWorld 8 [24]) stdConsts [] 24).events.take 7) ++
        Event.read 3 32 24 :: ((main (sentenceWorld 8 [24]) stdConsts [] 24).events.drop 8) ∧
    ∀ x ∈ (main (sentenceWorld 8 [24]) stdConsts [] 24).events.drop 8, x.isSetup = false :=
  ⟨by rfl,
   (C4_registration_precedes_streaming (sentenceWorld 8 [24]) stdConsts [] 24
      ((main (sentenceWorld 8 [24]) stdConsts [] 24).events.take 7)
      ((main (sentenceWorld 8 [24]) stdConsts [] 24).events.drop 8)
      (Event.read 3 32 24) (by rfl) rfl).2.1⟩

/-! ## The status returned by the parser does not steer the driver -/

theorem control_append (a b : List Event) : control (a ++ b) = control a ++ control b := by
  induction a with
  | nil => rfl
  | cons e es ih => cases e <;> simp [control, ih]

theorem control_text (l : List Event) (h : ∀ e ∈ l, e.isText = true) : control l = [] := by
  induction l with
  | nil => rfl
  | cons e es ih =>
    have he := h e (List.mem_cons_self _ _)
    have hes : ∀ x ∈ es, x.isText = true := fun x hx => h x (List.mem_cons_of_mem _ hx)
    cases e <;> simp_all [control, Event.isText]

/-- The loop body does not read the local `status`. -/
theorem innerStep_ctl_arg {σ : Type} (W : World σ) (K : Consts) (s : MainState σ) :
    innerStep W K s.ctl = innerStep W K s := rfl

/-- The state after the loop body, `status` apart, does not depend on the
status the parser returned. -/
theorem innerStep_withStatus_state {σ : Type} (W : World σ)
    (f : Statics σ → List Nat → Int → Int → Int) (K : Consts) (s : MainState σ) :
    (innerStep (W.withStatus f) K s).1.ctl = (innerStep W K s).1.ctl := rfl

theorem innerStep_control {σ : Type} (W : World σ) (K : Consts) (s : MainState σ) :
    control (innerStep W K s).2 =
      [Event.nmeap_parseBuffer s.offset s.rem 0
        (W.nmeap_parseBuffer s.mem s.buffer s.offset s.rem).rem] := by
  rw [innerStep_events]
  show Event.nmeap_parseBuffer _ _ 0 _ :: control _ = _
  rw [control_append, control_text _ (afterParse_text _ _),
    control_text _ (statusSwitch_text _ _ _)]
  rfl

theorem innerStep_withStatus_control {σ : Type} (W : World σ)
    (f : Statics σ → List Nat → Int → Int → Int) (K : Consts) (s : MainState σ) :
    control (innerStep (W.withStatus f) K s).2 = control (innerStep W K s).2 := by
  rw [innerStep_control, innerStep_control]
  rfl

theorem innerLoop_withStatus {σ : Type} (W : World σ)
    (f : Statics σ → List Nat → Int → Int → Int) (K : Consts) (fuel : Nat)
    (s' s : MainState σ) (h : s'.ctl = s.ctl) :
    (innerLoop (W.withStatus f) K fuel s').state.ctl = (innerLoop W K fuel s).state.ctl ∧
    control (innerLoop (W.withStatus f) K fuel s').events =
      control (innerLoop W K fuel s).events ∧
    (innerLoop (W.withStatus f) K fuel s').finished = (innerLoop W K fuel s).finished := by
  induction fuel generalizing s' s with
  | zero =>
    have hrem : s'.rem = s.rem := by simpa [MainState.ctl] using congrArg MainState.rem h
    simp [innerLoop, h, hrem]
  | succ n ih =>
    have hrem : s'.rem = s.rem := by simpa [MainState.ctl] using congrArg MainState.rem h
    by_cases hpos : 0 < s.rem
    · have hpos' : 0 < s'.rem := by rw [hrem]; exact hpos
      rw [innerLoop_pass _ K n s' hpos', innerLoop_pass W K n s hpos]
      have hstep : innerStep (W.withStatus f) K s' = innerStep (W.withStatus f) K s := by
        rw [← innerStep_ctl_arg _ K s', ← innerStep_ctl_arg _ K s, h]
      have hst : (innerStep (W.withStatus f) K s').1.ctl = (innerStep W K s).1.ctl := by
        rw [hstep]; exact innerStep_withStatus_state W f K s
      have hco : control (innerStep (W.withStatus f) K s').2 = control (innerStep W K s).2 := by
        rw [hstep]; exact innerStep_withStatus_control W f K s
      obtain ⟨i1, i2, i3⟩ := ih _ _ hst
      exact ⟨i1, by simp only [control_append, hco, i2], i3⟩
    · have hle : s.rem ≤ 0 := not_lt.mp hpos
      have hle' : s'.rem ≤ 0 := by rw [hrem]; exact hle
      rw [innerLoop_done _ K _ s' hle', innerLoop_done W K _ s hle]
      exact ⟨h, rfl, rfl⟩

theorem chunkEntry_ctl {σ : Type} (s' s : MainState σ) (len : Int) (buf : List Nat)
    (h : s'.ctl = s.ctl) : (chunkEntry s' len buf).ctl = (chunkEntry s len buf).ctl := by
  have hfd : s'.fd = s.fd := by simpa [MainState.ctl] using congrArg MainState.fd h
  have hmem : s'.mem = s.mem := by simpa [MainState.ctl] using congrArg MainState.mem h
  simp [chunkEntry, MainState.ctl, hfd, hmem]

/-- A `read` returning a length `≤ 0` ends the outer loop. -/
theorem outerLoop_break {σ : Type} (W : World σ) (K : Consts) (inner n i : Nat)
    (s : MainState σ) (h : (W.sys_read i s.fd 32).1 ≤ 0) :
    outerLoop W K inner (n + 1) i s =
      ⟨{ s with len := (W.sys_read i s.fd 32).1, rem := (W.sys_read i s.fd 32).1,
                buffer := (W.sys_read i s.fd 32).2 },
       [Event.read s.fd 32 (W.sys_read i s.fd 32).1, Event.perror "read"], true⟩ := by
  rw [outerLoop]
  simp only [h, if_true]

/-- After a `read` returning a positive length and an inner loop that is
left, the outer loop goes round again, with the next `read`. -/
theorem outerLoop_next {σ : Type} (W : World σ) (K : Consts) (inner n i : Nat)
    (s : MainState σ) (h : ¬ (W.sys_read i s.fd 32).1 ≤ 0)
    (hfin : (innerLoop W K inner
      (chunkEntry s (W.sys_read i s.fd 32).1 (W.sys_read i s.fd 32).2)).finished = true) :
    outerLoop W K inner (n + 1) i s =
      ⟨(outerLoop W K inner n (i + 1) (innerLoop W K inner
          (chunkEntry s (W.sys_read i s.fd 32).1 (W.sys_read i s.fd 32).2)).state).state,
       Event.read s.fd 32 (W.sys_read i s.fd 32).1 ::
         ((innerLoop W K inner
            (chunkEntry s (W.sys_read i s.fd 32).1 (W.sys_read i s.fd 32).2)).events ++
          (outerLoop W K inner n (i + 1) (innerLoop W K inner
            (chunkEntry s (W.sys_read i s.fd 32).1 (W.sys_read i s.fd 32).2)).state).events),
       (outerLoop W K inner n (i + 1) (innerLoop W K inner
          (chunkEntry s (W.sys_read i s.fd 32).1 (W.sys_read i s.fd 32).2)).state).finished⟩ := by
  rw [outerLoop]
  simp only [h, if_false, hfin, if_true]

/-- After a `read` returning a positive length, an inner loop that runs out
of fuel leaves the run unfinished. -/
theorem outerLoop_stuck {σ : Type} (W : World σ) (K : Consts) (inner n i : Nat)
    (s : MainState σ) (h : ¬ (W.sys_read i s.fd 32).1 ≤ 0)
    (hfin : (innerLoop W K inner
      (chunkEntry s (W.sys_read i s.fd 32).1 (W.sys_read i s.fd 32).2)).finished = false) :
    outerLoop W K inner (n + 1) i s =
      ⟨(innerLoop W K inner
          (chunkEntry s (W.sys_read i s.fd 32).1 (W.sys_read i s.fd 32).2)).state,
       Event.read s.fd 32 (W.sys_read i s.fd 32).1 ::
         (innerLoop W K inner
            (chunkEntry s (W.sys_read i s.fd 32).1 (W.sys_read i s.fd 32).2)).events,
       false⟩ := by
  rw [outerLoop]
  simp [h, hfin]

theorem outerLoop_withStatus {σ : Type} (W : World σ)
    (f : Statics σ → List Nat → Int → Int → Int) (K : Consts) (inner fuel i : Nat)
    (s' s : MainState σ) (h : s'.ctl = s.ctl) :
    (outerLoop (W.withStatus f) K inner fuel i s').state.ctl =
      (outerLoop W K inner fuel i s).state.ctl ∧
    control (outerLoop (W.withStatus f) K inner fuel i s').events =
      control (outerLoop W K inner fuel i s).events ∧
    (outerLoop (W.withStatus f) K inner fuel i s').finished =
      (outerLoop W K inner fuel i s).finished := by
  induction fuel generalizing i s' s with
  | zero => exact ⟨h, rfl, rfl⟩
  | succ n ih =>
    have hfd : s'.fd = s.fd := by simpa [MainState.ctl] using congrArg MainState.fd h
    have hmem : s'.mem = s.mem := by simpa [MainState.ctl] using congrArg MainState.mem h
    have hoff : s'.offset = s.offset := by
      simpa [MainState.ctl] using congrArg MainState.offset h
    have hr : (W.withStatus f).sys_read = W.sys_read := rfl
    obtain ⟨j1, j2, j3⟩ := innerLoop_withStatus W f K inner
      (chunkEntry s' (W.sys_read i s.fd 32).1 (W.sys_read i s.fd 32).2)
      (chunkEntry s (W.sys_read i s.fd 32).1 (W.sys_read i s.fd 32).2)
      (chunkEntry_ctl s' s _ _ h)
    by_cases hle : (W.sys_read i s.fd 32).1 ≤ 0
    · rw [outerLoop_break _ K inner n i s' (by rw [hr, hfd]; exact hle),
        outerLoop_break W K inner n i s hle]
      refine ⟨?_, ?_, rfl⟩
      · simp [MainState.ctl, hfd, hmem, hoff, hr]
      · simp only [hr, hfd]
    · by_cases hfin : (innerLoop W K inner
          (chunkEntry s (W.sys_read i s.fd 32).1 (W.sys_read i s.fd 32).2)).finished = true
      · rw [outerLoop_next _ K inner n i s' (by rw [hr, hfd]; exact hle)
            (by rw [hr, hfd, j3]; exact hfin),
          outerLoop_next W K inner n i s hle hfin]
        simp only [hr, hfd]
        obtain ⟨k1, k2, k3⟩ := ih (i + 1) _ _ j1
        refine ⟨k1, ?_, k3⟩
        simp only [control, control_append, j2, k2]
      · have hfin' := Bool.eq_false_iff.mpr hfin
        rw [outerLoop_stuck _ K inner n i s' (by rw [hr, hfd]; exact hle)
            (by rw [hr, hfd, j3]; exact hfin'),
          outerLoop_stuck W K inner n i s hle hfin']
        rw [hr, hfd]
        refine ⟨j1, ?_, rfl⟩
        simp only [control, j2]

/-- Replacing the statuses the parser returns by any others changes neither
how `main` ends, nor the control skeleton of its events, nor the statics. -/
theorem main_withStatus {σ : Type} (W : World σ)
    (f : Statics σ → List Nat → Int → Int → Int) (K : Consts) (argv : List String)
    (fuel : Nat) :
    (main (W.withStatus f) K argv fuel).outcome = (main W K argv fuel).outcome ∧
    control (main (W.withStatus f) K argv fuel).events =
      control (main W K argv fuel).events ∧
    (main (W.withStatus f) K argv fuel).mem = (main W K argv fuel).mem := by
  have hop : openPort (W.withStatus f) (portOf argv) B4800 =
      openPort W (portOf argv) B4800 := rfl
  have hst : Statics.start (W.withStatus f) = Statics.start W := rfl
  have hi : (W.withStatus f).nmeap_init = W.nmeap_init := rfl
  have ha : (W.withStatus f).nmeap_addParser = W.nmeap_addParser := rfl
  unfold main
  simp only [hop, hst, hi, ha]
  by_cases h0 : (openPort W (portOf argv) B4800).1 < 0
  · rw [if_pos h0, if_pos h0]
    exact ⟨rfl, rfl, rfl⟩
  · rw [if_neg h0, if_neg h0]
    by_cases h1 : (W.nmeap_init (Statics.start W).nmea).1 ≠ 0
    · rw [if_pos h1, if_pos h1]
      exact ⟨rfl, rfl, rfl⟩
    · rw [if_neg h1, if_neg h1]
      by_cases h2 : (W.nmeap_addParser (W.nmeap_init (Statics.start W).nmea).2 "GPGGA"
          Decoder.nmeap_gpgga Callout.gpgga_callout (RecRef.gga GgaPtr.gga)).1 ≠ 0
      · rw [if_pos h2, if_pos h2]
        exact ⟨rfl, rfl, rfl⟩
      · rw [if_neg h2, if_neg h2]
        by_cases h3 : (W.nmeap_addParser (W.nmeap_addParser
            (W.nmeap_init (Statics.start W).nmea).2 "GPGGA"
            Decoder.nmeap_gpgga Callout.gpgga_callout (RecRef.gga GgaPtr.gga)).2 "GPRMC"
            Decoder.nmeap_gprmc Callout.gprmc_callout (RecRef.rmc RmcPtr.rmc)).1 ≠ 0
        · rw [if_pos h3, if_pos h3]
          exact ⟨rfl, rfl, rfl⟩
        · rw [if_neg h3, if_neg h3]
          obtain ⟨k1, k2, k3⟩ := outerLoop_withStatus W f K fuel fuel 0 _ _
            (rfl : (MainState.ctl ⟨(W.nmeap_addParser (W.nmeap_addParser
              (W.nmeap_init (Statics.start W).nmea).2 "GPGGA"
              Decoder.nmeap_gpgga Callout.gpgga_callout (RecRef.gga GgaPtr.gga)).2 "GPRMC"
              Decoder.nmeap_gprmc Callout.gprmc_callout (RecRef.rmc RmcPtr.rmc)).1, 0, 0, 0, [],
              (openPort W (portOf argv) B4800).1,
              { Statics.start W with nmea := (W.nmeap_addParser (W.nmeap_addParser
                (W.nmeap_init (Statics.start W).nmea).2 "GPGGA"
                Decoder.nmeap_gpgga Callout.gpgga_callout (RecRef.gga GgaPtr.gga)).2 "GPRMC"
                Decoder.nmeap_gprmc Callout.gprmc_callout (RecRef.rmc RmcPtr.rmc)).2 }⟩) = _)
          have kmem := congrArg MainState.mem k1
          simp only [MainState.ctl] at kmem
          rw [k3]
          split
          · exact ⟨rfl, by simp only [control_append, k2], kmem⟩
          · exact ⟨rfl, by simp only [control_append, k2], kmem⟩

/-- Every round of the outer loop starts with a `read` of the descriptor. -/
theorem outerLoop_head {σ : Type} (W : World σ) (K : Consts) (inner n i : Nat)
    (s : MainState σ) :
    ∃ rest, (outerLoop W K inner (n + 1) i s).events =
      Event.read s.fd 32 (W.sys_read i s.fd 32).1 :: rest := by
  by_cases hle : (W.sys_read i s.fd 32).1 ≤ 0
  · rw [outerLoop_break W K inner n i s hle]
    exact ⟨_, rfl⟩
  · by_cases hfin : (innerLoop W K inner
        (chunkEntry s (W.sys_read i s.fd 32).1 (W.sys_read i s.fd 32).2)).finished = true
    · rw [outerLoop_next W K inner n i s hle hfin]
      exact ⟨_, rfl⟩
    · rw [outerLoop_stuck W K inner n i s hle (Bool.eq_false_iff.mpr hfin)]
      exact ⟨_, rfl⟩

/-- When `main` returns 0 its last three events are a `read` that returned a
length `≤ 0`, the `perror` and the `close` of the descriptor, and no other
`close` was made. -/
theorem main_returned_zero {σ : Type} (W : World σ) (K : Consts) (argv : List String)
    (fuel : Nat) (h : (main W K argv fuel).outcome = Outcome.returned 0) :
    ∃ pre n, n ≤ 0 ∧
      (main W K argv fuel).events = pre ++
        [Event.read (openPort W (portOf argv) B4800).1 32 n, Event.perror "read",
         Event.close (openPort W (portOf argv) B4800).1] ∧
      ∀ e ∈ pre, e.isClose = false := by
  rcases main_shape W K argv fuel with ⟨hneg, ho, _⟩ | ⟨_, ho, _⟩ | ⟨_, ho, _⟩ |
      ⟨_, ho, _⟩ | ⟨hfd0, s0, hrun, hfd⟩
  · rw [ho] at h
    injection h with h
    omega
  · rw [ho] at h; cases h
  · rw [ho] at h; cases h
  · rw [ho] at h; cases h
  · rcases hrun with ⟨hfin, _, hev⟩ | ⟨_, ho, _⟩
    · obtain ⟨pre, n, hn, hlo⟩ := outerLoop_exit W K fuel fuel 0 s0 hfin
      rw [hfd] at hlo
      refine ⟨(openPort W (portOf argv) B4800).2 ++ setupOK ++ pre, n, hn, ?_, ?_⟩
      · rw [hev, hlo]; simp
      · intro e he
        rcases List.mem_append.mp he with he | he
        · rcases List.mem_append.mp he with he | he
          · exact openPort_ok_no_close W _ _ hfd0 e he
          · simp [setupOK, addGgaEvent, addRmcEvent] at he
            rcases he with he | he | he <;> subst he <;> rfl
        · refine isLoopEvent_not_close e (outerLoop_loopEvents W K fuel fuel 0 s0 e ?_)
          rw [hlo]; simp [he]
    · rw [ho] at h; cases h

/-- The status returned by `nmeap_parseBuffer` does not steer the driver.
(1) Replacing the statuses the parser returns by arbitrary other values, error
codes included, changes neither how `main` ends nor the control skeleton of
its run.  (2) When the inner loop is left after a `read` of positive length,
the next event after it is the next `read`.  (3) The outer loop is left only
after a `read` that returned a length `≤ 0`, and `main` returns 0 only then.
Which bytes a parse call is handed is not part of this statement. -/
theorem statuses_do_not_steer {σ : Type} (W : World σ) (K : Consts)
    (argv : List String) (fuel : Nat) :
    (∀ f : Statics σ → List Nat → Int → Int → Int,
      (main (W.withStatus f) K argv fuel).outcome = (main W K argv fuel).outcome ∧
      control (main (W.withStatus f) K argv fuel).events =
        control (main W K argv fuel).events) ∧
    (∀ (inner n i : Nat) (s : MainState σ), ¬ (W.sys_read i s.fd 32).1 ≤ 0 →
      (innerLoop W K inner
        (chunkEntry s (W.sys_read i s.fd 32).1 (W.sys_read i s.fd 32).2)).finished = true →
      ∃ rest, (outerLoop W K inner (n + 2) i s).events =
        Event.read s.fd 32 (W.sys_read i s.fd 32).1 ::
          ((innerLoop W K inner
            (chunkEntry s (W.sys_read i s.fd 32).1 (W.sys_read i s.fd 32).2)).events ++
           Event.read s.fd 32 (W.sys_read (i + 1) s.fd 32).1 :: rest)) ∧
    (∀ (inner n i : Nat) (s : MainState σ), (outerLoop W K inner n i s).finished = true →
      ∃ pre r, r ≤ 0 ∧ (outerLoop W K inner n i s).events =
        pre ++ [Event.read s.fd 32 r, Event.perror "read"]) ∧
    ((main W K argv fuel).outcome = Outcome.returned 0 →
      ∃ pre r, r ≤ 0 ∧ (main W K argv fuel).events = pre ++
        [Event.read (openPort W (portOf argv) B4800).1 32 r, Event.perror "read",
         Event.close (openPort W (portOf argv) B4800).1]) := by
  refine ⟨?_, ?_, ?_, ?_⟩
  · intro f
    exact ⟨(main_withStatus W f K argv fuel).1, (main_withStatus W f K argv fuel).2.1⟩
  · intro inner n i s hgt hfin
    rw [outerLoop_next W K inner (n + 1) i s hgt hfin]
    obtain ⟨rest, hrest⟩ := outerLoop_head W K inner n (i + 1) (innerLoop W K inner
      (chunkEntry s (W.sys_read i s.fd 32).1 (W.sys_read i s.fd 32).2)).state
    have hfd : (innerLoop W K inner (chunkEntry s (W.sys_read i s.fd 32).1
        (W.sys_read i s.fd 32).2)).state.fd = s.fd := by
      rw [innerLoop_fd]; rfl
    rw [hfd] at hrest
    exact ⟨rest, by simp only [hrest]⟩
  · intro inner n i s h
    exact outerLoop_exit W K inner n i s h
  · intro h
    obtain ⟨pre, r, hr, hev, _⟩ := main_returned_zero W K argv fuel h
    exact ⟨pre, r, hr, hev⟩

/-! ## Termination and the exit status of `main` -/

/-- With a parser that makes progress, reads of at most `inner` bytes and a
`read` number `i + k` that returns a length `≤ 0`, the outer loop started at
read number `i` is left within `k + 1` rounds. -/
theorem outerLoop_terminates {σ : Type} (W : World σ) (K : Consts) (inner : Nat) (fd : Int)
    (hprog : ∀ m b o r, 0 < r →
      0 ≤ (W.nmeap_parseBuffer m b o r).rem ∧ (W.nmeap_parseBuffer m b o r).rem ≤ r - 1)
    (hbound : ∀ i, (W.sys_read i fd 32).1 ≤ (inner : Int))
    (k : Nat) (i fuel : Nat) (s : MainState σ) (hfd : s.fd = fd)
    (hend : (W.sys_read (i + k) fd 32).1 ≤ 0) (hfuel : k + 1 ≤ fuel) :
    (outerLoop W K inner fuel i s).finished = true := by
  induction k generalizing i fuel s with
  | zero =>
    obtain ⟨n, rfl⟩ : ∃ n, fuel = n + 1 := ⟨fuel - 1, by omega⟩
    rw [outerLoop_break W K inner n i s (by rw [hfd]; simpa using hend)]
  | succ k ih =>
    obtain ⟨n, rfl⟩ : ∃ n, fuel = n + 1 := ⟨fuel - 1, by omega⟩
    by_cases hle : (W.sys_read i s.fd 32).1 ≤ 0
    · rw [outerLoop_break W K inner n i s hle]
    · have hin := innerLoop_terminates W K hprog inner
        (chunkEntry s (W.sys_read i s.fd 32).1 (W.sys_read i s.fd 32).2)
        (by show 0 ≤ (W.sys_read i s.fd 32).1; omega)
        (by show (W.sys_read i s.fd 32).1 ≤ (inner : Int); rw [hfd]; exact hbound i)
      rw [outerLoop_next W K inner n i s hle hin.1]
      refine ih (i + 1) n _ ?_ ?_ (by omega)
      · rw [innerLoop_fd]; exact hfd
      · have : i + 1 + k = i + (k + 1) := by omega
        rw [this]; exact hend

/-- Claim C10: the exit status of `main` is determined by the first failing
step.  (1) If `openPort` returns a negative value, `main` returns that value
and makes no call of `nmeap_init`, `nmeap_addParser`, `read` or
`nmeap_parseBuffer`.  (2) If `nmeap_init` or an `nmeap_addParser` returns
nonzero, the program exits with status 1 and has made no `read` and no parse
call.  (3) Otherwise a run that is over has returned 0, and its events end
with a `read` that returned a length `≤ 0`, the `perror`, and the one and
only `close` of the descriptor.  (4) The run is over, given enough fuel,
whenever the parser makes progress on every call, no `read` returns more than
the 32 bytes asked for and some `read` returns a length `≤ 0`. -/
theorem C10_exit_status_first_failure {σ : Type} (W : World σ) (K : Consts)
    (argv : List String) :
    (∀ fuel, (openPort W (portOf argv) B4800).1 < 0 →
      (main W K argv fuel).outcome = Outcome.returned (openPort W (portOf argv) B4800).1 ∧
      ∀ e ∈ (main W K argv fuel).events, e.isSetup = false ∧ e.isStream = false) ∧
    (∀ fuel, (∃ e ∈ (main W K argv fuel).events, e.isFailedSetup = true) →
      (main W K argv fuel).outcome = Outcome.exited 1 ∧
      ∀ e ∈ (main W K argv fuel).events, e.isStream = false) ∧
    (∀ fuel, 0 ≤ (openPort W (portOf argv) B4800).1 →
      (∀ e ∈ (main W K argv fuel).events, e.isFailedSetup = false) →
      (main W K argv fuel).outcome ≠ Outcome.running →
      (main W K argv fuel).outcome = Outcome.returned 0 ∧
      ∃ pre n, n ≤ 0 ∧
        (main W K argv fuel).events = pre ++
          [Event.read (openPort W (portOf argv) B4800).1 32 n, Event.perror "read",
           Event.close (openPort W (portOf argv) B4800).1] ∧
        ∀ e ∈ pre, e.isClose = false) ∧
    ((∀ m b o r, 0 < r →
        0 ≤ (W.nmeap_parseBuffer m b o r).rem ∧ (W.nmeap_parseBuffer m b o r).rem ≤ r - 1) →
      (∀ i, (W.sys_read i (openPort W (portOf argv) B4800).1 32).1 ≤ 32) →
      (∃ N, (W.sys_read N (openPort W (portOf argv) B4800).1 32).1 ≤ 0) →
      ∃ F, ∀ fuel, F ≤ fuel → (main W K argv fuel).outcome ≠ Outcome.running) := by
  have hop := openPort_events W (portOf argv) B4800
  refine ⟨?_, ?_, ?_, ?_⟩
  · intro fuel hneg
    rcases main_shape W K argv fuel with ⟨_, ho, hev⟩ | ⟨h0, _⟩ | ⟨h0, _⟩ | ⟨h0, _⟩ | ⟨h0, _⟩
    · refine ⟨ho, ?_⟩
      intro e he
      rw [hev] at he
      rcases List.mem_append.mp he with he | he
      · exact hop e he
      · simp at he; subst he; exact ⟨rfl, rfl⟩
    all_goals omega
  · intro fuel hfail
    obtain ⟨e, he, hf⟩ := hfail
    have hs : e.isSetup = true := isFailedSetup_isSetup e hf
    have hstream : ∀ l : List Event, (∀ x ∈ l, x.isStream = false) →
        ∀ x ∈ (openPort W (portOf argv) B4800).2 ++ l, x.isStream = false := by
      intro l hl x hx
      rcases List.mem_append.mp hx with hx | hx
      · exact (hop x hx).2
      · exact hl x hx
    rcases main_shape W K argv fuel with ⟨_, _, hev⟩ | ⟨_, ho, r, _, hev⟩ |
        ⟨_, ho, r, _, hev⟩ | ⟨_, ho, r, _, hev⟩ | ⟨_, s0, hrun, _⟩
    · exfalso
      rw [hev] at he
      rcases List.mem_append.mp he with he | he
      · have := (hop e he).1
        rw [hs] at this; cases this
      · simp at he; subst he; cases hs
    · exact ⟨ho, by rw [hev]; exact hstream _ (by simp [Event.isStream])⟩
    · exact ⟨ho, by rw [hev]; exact hstream _ (by simp [Event.isStream, addGgaEvent])⟩
    · refine ⟨ho, ?_⟩
      rw [hev]
      exact hstream _ (by simp [Event.isStream, addGgaEvent, addRmcEvent])
    · exfalso
      have hmem : e ∈ (openPort W (portOf argv) B4800).2 ∨ e ∈ setupOK ∨
          e ∈ (outerLoop W K fuel fuel 0 s0).events ∨
          e = Event.close (openPort W (portOf argv) B4800).1 := by
        rcases hrun with ⟨_, _, hev⟩ | ⟨_, _, hev⟩
        · rw [hev] at he
          simp only [List.mem_append, List.mem_singleton] at he
          tauto
        · rw [hev] at he
          simp only [List.mem_append] at he
          tauto
      rcases hmem with hm | hm | hm | hm
      · have := (hop e hm).1
        rw [hs] at this; cases this
      · simp [setupOK, addGgaEvent, addRmcEvent] at hm
        rcases hm with hm | hm | hm <;> subst hm <;> simp [Event.isFailedSetup] at hf
      · have := isLoopEvent_not_setup e (outerLoop_loopEvents W K fuel fuel 0 s0 e hm)
        rw [hs] at this; cases this
      · subst hm; cases hs
  · intro fuel h0 hok hrunning
    have hbad : ∀ (r : Int) (x : Event), r ≠ 0 →
        (x = Event.nmeap_init r ∨ x = addGgaEvent r ∨ x = addRmcEvent r) →
        x ∈ (main W K argv fuel).events → False := by
      intro r x hr hx hin
      have := hok x hin
      rcases hx with hx | hx | hx <;> subst hx <;>
        simp [Event.isFailedSetup, addGgaEvent, addRmcEvent, hr] at this
    rcases main_shape W K argv fuel with ⟨hneg, _, _⟩ | ⟨_, _, r, hr, hev⟩ |
        ⟨_, _, r, hr, hev⟩ | ⟨_, _, r, hr, hev⟩ | ⟨_, s0, hrun, _⟩
    · omega
    · exact (hbad r _ hr (Or.inl rfl) (by rw [hev]; simp)).elim
    · exact (hbad r _ hr (Or.inr (Or.inl rfl)) (by rw [hev]; simp)).elim
    · exact (hbad r _ hr (Or.inr (Or.inr rfl)) (by rw [hev]; simp)).elim
    · rcases hrun with ⟨_, ho, _⟩ | ⟨_, ho, _⟩
      · exact ⟨ho, main_returned_zero W K argv fuel ho⟩
      · exact (hrunning ho).elim
  · intro hprog hbound hN
    obtain ⟨N, hN⟩ := hN
    refine ⟨max (N + 1) 32, ?_⟩
    intro fuel hfuel
    rcases main_shape W K argv fuel with ⟨_, ho, _⟩ | ⟨_, ho, _⟩ | ⟨_, ho, _⟩ |
        ⟨_, ho, _⟩ | ⟨_, s0, hrun, hfd⟩
    · rw [ho]; exact fun h => Outcome.noConfusion h
    · rw [ho]; exact fun h => Outcome.noConfusion h
    · rw [ho]; exact fun h => Outcome.noConfusion h
    · rw [ho]; exact fun h => Outcome.noConfusion h
    · have hfin := outerLoop_terminates W K fuel (openPort W (portOf argv) B4800).1 hprog
        (fun i => le_trans (hbound i) (by
          have : 32 ≤ fuel := le_trans (le_max_right _ _) hfuel
          exact_mod_cast this))
        N 0 fuel s0 hfd (by simpa using hN) (le_trans (le_max_left _ _) hfuel)
      rcases hrun with ⟨_, ho, _⟩ | ⟨hstuck, _, _⟩
      · rw [ho]; exact fun h => Outcome.noConfusion h
      · rw [hfin] at hstuck; cases hstuck

theorem sentenceWorld_read_bound (i : Nat) (fd : Int) :
    ((sentenceWorld 8 [24]).sys_read i fd 32).1 ≤ 32 := by
  rcases i with _ | i <;> simp [sentenceWorld]

/-- Witness for C10: with the 8-byte sentence parser and a device that
delivers one 24-byte chunk and then end of file, the hypotheses of part (4)
hold and the run is over for all large enough fuel. -/
theorem C10_exit_status_first_failure_witness :
    ∃ F, ∀ fuel, F ≤ fuel →
      (main (sentenceWorld 8 [24]) stdConsts [] fuel).outcome ≠ Outcome.running :=
  (C10_exit_status_first_failure (sentenceWorld 8 [24]) stdConsts []).2.2.2
    (fun m b o r h => sentenceParser_progress m b o r h)
    (fun i => sentenceWorld_read_bound i _)
    ⟨1, by decide⟩

end LinuxNmeap
